import Mathlib

/-!
# Verification of the comprehensible-wsdl import-resolution core

A shallow embedding of the repository's import resolver (`src/load.js`),
tree normalizer (`src/model.js`), raw parser wrapper (`src/parse.js`),
shared helpers (`src/util.js`) and reference resolver (`src/resolve.js`),
together with proofs settling the frozen claims about them.

The external XML parser (fast-xml-parser) is treated as a black box, as the
specification directs: a document is represented by its parsed tree (`Doc`),
a JSON-like value (`JVal`) with namespace-stripped element names, `@_`-tagged
attributes, and repeating elements materialized as arrays.  I/O (file reads /
HTTP fetches) is modelled by a finite environment mapping absolute locations
to documents; a location outside the environment is unreachable.  Thrown JS
errors become an explicit `Err` sum carried in `Except`.

The recursive resolver of `load.js` is embedded with an explicit fuel
parameter (`mkResolvers`), keeping every definition structurally recursive
and hence executable by `rfl`/`decide`; the termination claim is settled by
the adequacy theorem showing a fuel of `env.length + 2` never runs out.
-/

namespace CWsdl

/-- A parsed XML tree as produced by fast-xml-parser: JS objects (insertion
ordered key/value lists with unique keys), arrays, strings, and
`null`/`undefined` (conflated, as the source only ever tests them with
falsy/nullish checks).  Attribute values are always strings
(`parseAttributeValue: false`). -/
inductive JVal where
  | null : JVal
  | str (s : String) : JVal
  | obj (kvs : List (String × JVal)) : JVal
  | arr (items : List JVal) : JVal

/-- First value bound to a key in a JS object's key/value list (keys are
unique in parser output, so first = only). -/
def findVal : List (String × JVal) → String → JVal
  | [], _ => .null
  | (k', v) :: rest, k => if k' = k then v else findVal rest k

/-- JS property read `v[k]`: `undefined` on a non-object receiver (string,
array, null) for the property names used by this code base. -/
def jget : JVal → String → JVal
  | .obj kvs, k => findVal kvs k
  | _, _ => .null

/-- Update a key in a JS object's key/value list, in place when present,
appended in insertion order when absent. -/
def setKV : List (String × JVal) → String → JVal → List (String × JVal)
  | [], k, v => [(k, v)]
  | (k', v') :: rest, k, v =>
      if k' = k then (k, v) :: rest else (k', v') :: setKV rest k v

/-- JS property write `v[k] = x` on an object.  The source only ever writes
to object receivers on the paths modelled here (writes to primitives throw
in strict mode and are modelled as explicit errors where reachable, see
`ensureSchema`); on a non-object this returns the receiver unchanged. -/
def jset : JVal → String → JVal → JVal
  | .obj kvs, k, v => .obj (setKV kvs k v)
  | other, _, _ => other

/-- JS truthiness of a parsed value: `null`/`undefined` and `""` are falsy;
every object and array (including `{}` and `[]`) is truthy. -/
def truthy : JVal → Bool
  | .null => false
  | .str s => s ≠ ""
  | .obj _ => true
  | .arr _ => true

/-- JS nullish test `v == null`, the test performed by `??` and `?.`. -/
def isNull : JVal → Bool
  | .null => true
  | _ => false

/-- String content of a value; attribute values are always strings. -/
def jstr : JVal → String
  | .str s => s
  | _ => ""

/-- `arr` from `util.js`: `[]` for null/undefined, an array unchanged, and
any other value wrapped in a singleton. -/
def jarr : JVal → List JVal
  | .null => []
  | .arr items => items
  | v => [v]

/-- Attribute read with a nullish default: `node[k] ?? d`. -/
def attrOr (v : JVal) (k : String) (d : String) : String :=
  match jget v k with
  | .null => d
  | w => jstr w

/-- `stripNs` from `util.js`: drop everything up to and including the first
colon of an attribute value (`"tns:AddRequest"` becomes `"AddRequest"`). -/
def stripNs (value : String) : String :=
  let i := value.posOf ':'
  if i = value.endPos then value else value.extract (value.next i) value.endPos

/-- `text` from `util.js`: extract a plain string from a node that may be a
string, an array (first element), an object with a `#text` key, or
null/undefined. -/
def text : JVal → String
  | .null => ""
  | .str s => s.trim
  | .arr [] => ""
  | .arr (x :: _) => text x
  | .obj kvs => (jstr (findVal kvs "#text")).trim

/-! ## The normalized model (`model.js`) -/

/-- A normalized field of a complex type. -/
structure Field where
  name : String
  type : String
  minOccurs : String
  maxOccurs : String
  documentation : String
deriving Repr, DecidableEq

/-- A normalized type: element-wrapped complex type, named complex type, or
named simple type. -/
structure TypeDef where
  name : String
  kind : String
  documentation : String
  fields : List Field
  enumerations : List String
deriving Repr, DecidableEq

/-- A normalized message part with its element/type reference. -/
structure Part where
  name : String
  element : String
  type : String
deriving Repr, DecidableEq

/-- A normalized message. -/
structure Message where
  name : String
  parts : List Part
deriving Repr, DecidableEq

/-- A fault of an operation. -/
structure OpFault where
  name : String
  message : String
deriving Repr, DecidableEq

/-- A normalized portType operation. -/
structure Operation where
  name : String
  documentation : String
  input : String
  output : String
  faults : List OpFault
deriving Repr, DecidableEq

/-- A bound operation of a binding. -/
structure BindingOp where
  name : String
  soapAction : String
deriving Repr, DecidableEq

/-- A normalized binding. -/
structure Binding where
  name : String
  type : String
  style : String
  transport : String
  protocol : String
  operations : List BindingOp
deriving Repr, DecidableEq

/-- A normalized service endpoint. -/
structure Endpoint where
  service : String
  port : String
  binding : String
  url : String
deriving Repr, DecidableEq

/-- The normalized model returned by `buildModel`. -/
structure Model where
  name : String
  targetNamespace : String
  documentation : String
  types : List TypeDef
  messages : List Message
  operations : List Operation
  bindings : List Binding
  endpoints : List Endpoint
deriving Repr, DecidableEq

/-- `getDoc` from `model.js`: a direct `documentation` child, else the XSD
`annotation`/`documentation` pattern, else the empty string. -/
def getDoc (node : JVal) : String :=
  if ¬ truthy node then ""
  else
    let direct := text ((jarr (jget node "documentation")).head?.getD .null)
    if direct ≠ "" then direct
    else
      let ann := (jarr (jget node "annotation")).head?.getD .null
      text ((jarr (jget ann "documentation")).head?.getD .null)

/-- `extractFields` from `model.js`: read the first present compositor among
sequence/all/choice and emit one field per child element. -/
def extractFields (complexTypeNode : JVal) : List Field :=
  let c1 := (jarr (jget complexTypeNode "sequence")).head?.getD .null
  let c2 := (jarr (jget complexTypeNode "all")).head?.getD .null
  let c3 := (jarr (jget complexTypeNode "choice")).head?.getD .null
  let comp := if !(isNull c1) then c1
    else if !(isNull c2) then c2
    else if !(isNull c3) then c3
    else JVal.obj []
  (jarr (jget comp "element")).map fun el =>
    { name := attrOr el "@_name" ""
      type := stripNs (match jget el "@_type" with
        | .null => attrOr el "@_element" ""
        | w => jstr w)
      minOccurs := attrOr el "@_minOccurs" "1"
      maxOccurs := attrOr el "@_maxOccurs" "1"
      documentation := getDoc el }

/-- `extractEnumerations` from `model.js`. -/
def extractEnumerations (simpleTypeNode : JVal) : List String :=
  let restriction := jget simpleTypeNode "restriction"
  if ¬ truthy restriction then []
  else (jarr (jget restriction "enumeration")).map fun e => attrOr e "@_value" ""

/-- `extractTypes` from `model.js`: one TypeDef per top-level element
wrapping an inline complexType, per named complexType, and per named
simpleType, in that group order. -/
def extractTypes (schema : JVal) : List TypeDef :=
  ((jarr (jget schema "element")).filterMap fun el =>
    let ct := (jarr (jget el "complexType")).head?.getD .null
    if ¬ truthy ct then none
    else some
      { name := attrOr el "@_name" ""
        kind := "element"
        documentation := getDoc el
        fields := extractFields ct
        enumerations := [] })
  ++ ((jarr (jget schema "complexType")).map fun ct =>
    { name := attrOr ct "@_name" ""
      kind := "complexType"
      documentation := getDoc ct
      fields := extractFields ct
      enumerations := [] })
  ++ ((jarr (jget schema "simpleType")).map fun st =>
    { name := attrOr st "@_name" ""
      kind := "simpleType"
      documentation := getDoc st
      fields := []
      enumerations := extractEnumerations st })

/-- `extractMessages` from `model.js`. -/
def extractMessages (messages : List JVal) : List Message :=
  messages.map fun msg =>
    { name := attrOr msg "@_name" ""
      parts := (jarr (jget msg "part")).map fun p =>
        { name := attrOr p "@_name" ""
          element := stripNs (attrOr p "@_element" "")
          type := stripNs (attrOr p "@_type" "") } }

/-- `extractOperations` from `model.js`: flatten every portType's operations
into one sequence. -/
def extractOperations (portTypes : List JVal) : List Operation :=
  portTypes.flatMap fun pt =>
    (jarr (jget pt "operation")).map fun op =>
      { name := attrOr op "@_name" ""
        documentation := getDoc op
        input := stripNs (attrOr ((jarr (jget op "input")).head?.getD .null) "@_message" "")
        output := stripNs (attrOr ((jarr (jget op "output")).head?.getD .null) "@_message" "")
        faults := (jarr (jget op "fault")).map fun f =>
          { name := attrOr f "@_name" ""
            message := stripNs (attrOr f "@_message" "") } }

/-- `detectProtocol` from `model.js`: label the transport string. -/
def detectProtocol (transport : String) : String :=
  if (transport.splitOn "soap12").length ≥ 2 then "SOAP 1.2" else "SOAP 1.1"

/-- `extractBindings` from `model.js`: after namespace stripping the
protocol sub-descriptor has the same local name `binding` as its parent, and
is located as `b.binding[0]`; defaults are style `"document"` and transport
`""`. -/
def extractBindings (bindings : List JVal) : List Binding :=
  bindings.map fun b =>
    let soapBinding0 := (jarr (jget b "binding")).head?.getD .null
    let soapBinding := if isNull soapBinding0 then JVal.obj [] else soapBinding0
    { name := attrOr b "@_name" ""
      type := stripNs (attrOr b "@_type" "")
      style := attrOr soapBinding "@_style" "document"
      transport := attrOr soapBinding "@_transport" ""
      protocol := detectProtocol (attrOr soapBinding "@_transport" "")
      operations := (jarr (jget b "operation")).map fun op =>
        let soapOp0 := (jarr (jget op "operation")).head?.getD .null
        let soapOp := if isNull soapOp0 then JVal.obj [] else soapOp0
        { name := attrOr op "@_name" ""
          soapAction := attrOr soapOp "@_soapAction" "" } }

/-- `extractEndpoints` from `model.js`: one endpoint per service and port
pair. -/
def extractEndpoints (services : List JVal) : List Endpoint :=
  services.flatMap fun svc =>
    (jarr (jget svc "port")).map fun port =>
      let address := jget port "address"
      let a0 := match address with
        | .arr items => items.head?.getD .null
        | v => v
      { service := attrOr svc "@_name" ""
        port := attrOr port "@_name" ""
        binding := stripNs (attrOr port "@_binding" "")
        url := attrOr a0 "@_location" "" }

/-- `buildModel` from `model.js`: normalize the raw (already merged) parser
output into the flat model. -/
def buildModel (raw : JVal) : Model :=
  let defs := jget raw "definitions"
  let schema0 := jget (jget defs "types") "schema"
  let schema := if isNull schema0 then JVal.obj [] else schema0
  { name := attrOr defs "@_name" ""
    targetNamespace := attrOr defs "@_targetNamespace" ""
    documentation := getDoc defs
    types := extractTypes schema
    messages := extractMessages (jarr (jget defs "message"))
    operations := extractOperations (jarr (jget defs "portType"))
    bindings := extractBindings (jarr (jget defs "binding"))
    endpoints := extractEndpoints (jarr (jget defs "service")) }

/-! ## Reference index and resolver (`resolve.js`) -/

/-- JS `Map` built from a pair list, queried at a key: later pairs overwrite
earlier ones, so the last pair with the key wins. -/
def mapGet {α : Type} (pairs : List (String × α)) (k : String) : Option α :=
  pairs.foldl (fun acc kv => if kv.1 = k then some kv.2 else acc) none

/-- The index returned by `buildIndex`: insertion-ordered name/entity pair
lists standing for the two JS `Map`s. -/
structure RefIndex where
  typeByName : List (String × TypeDef)
  messageByName : List (String × Message)

/-- `buildIndex` from `resolve.js`. -/
def buildIndex (model : Model) : RefIndex :=
  { typeByName := model.types.map fun t => (t.name, t)
    messageByName := model.messages.map fun m => (m.name, m) }

/-- A per-part descriptor returned by `resolveMessageFields`. -/
structure FieldDescriptor where
  partName : String
  typeName : String
  fields : List Field
  enumerations : List String
deriving Repr, DecidableEq

/-- `resolveMessageFields` from `resolve.js`: one descriptor per part of the
named message (empty list when the message is unknown), preferring the
element reference over the type reference and reading exactly one level of
field data from the type index. -/
def resolveMessageFields (messageName : String) (index : RefIndex) :
    List FieldDescriptor :=
  match mapGet index.messageByName messageName with
  | none => []
  | some message =>
    message.parts.map fun part =>
      let refName := if part.element ≠ "" then part.element else part.type
      match mapGet index.typeByName refName with
      | none =>
        { partName := part.name, typeName := refName
          fields := [], enumerations := [] }
      | some type0 =>
        { partName := part.name, typeName := refName
          fields := type0.fields, enumerations := type0.enumerations }

/-! ## The import resolver (`load.js`)

A document is its parsed tree (the external parser is a black box); an
environment maps absolute locations to documents.  JS exceptions become the
explicit `Err` sum: note which constructors carry the offending location in
their message and which do not, mirroring the throw sites of the source. -/

/-- The errors the pipeline can raise.  `fetchErr` carries the offending
location because both throw sites of `fetchSource` put the location in the
message (the explicit `Failed to fetch ...` and Node's `ENOENT ... open
'<path>'`).  `parseErr`, `badParserOutput` and `noRoot` carry no location:
the parser and `parseWsdl`/`parseXsd` never receive one.  `typeErr` is the
strict-mode TypeError of a property write to a primitive.  `outOfFuel` is
an artifact of the fuel-indexed embedding, shown unreachable for the fuel
used by `loadWsdl`. -/
inductive Err where
  | parseErr : Err
  | badParserOutput : Err
  | noRoot : Err
  | typeErr : Err
  | fetchErr (loc : String) : Err
  | outOfFuel : Err
deriving Repr, DecidableEq

/-- The location carried in an error's message, when there is one. -/
def errLocation : Err → Option String
  | .fetchErr loc => some loc
  | _ => none

/-- A fetched document, as seen through the black-box parser: either
malformed (the parser throws) or a parsed tree. -/
inductive Doc where
  | malformed : Doc
  | parsed (tree : JVal) : Doc

/-- An environment of reachable locations; a location absent from it is
unreachable (missing file / failing fetch). -/
abbrev Env := List (String × Doc)

/-- `parseWsdl` from `parse.js`: fail on malformed input, on unexpected
parser output (a primitive), and on a missing/falsy `definitions` root. -/
def parseWsdl : Doc → Except Err JVal
  | .malformed => .error .parseErr
  | .parsed t =>
    match t with
    | .obj kvs => if truthy (jget (.obj kvs) "definitions") then .ok (.obj kvs)
                  else .error .noRoot
    | .arr _ => .error .noRoot
    | _ => .error .badParserOutput

/-- `parseXsd` from `load.js`: parse a standalone XSD and return
`result.schema ?? result.definitions?.types?.schema ?? {}`; only malformed
input is an error. -/
def parseXsd : Doc → Except Err JVal
  | .malformed => .error .parseErr
  | .parsed t =>
    let s := jget t "schema"
    if !(isNull s) then .ok s
    else
      let s2 := jget (jget (jget t "definitions") "types") "schema"
      if !(isNull s2) then .ok s2 else .ok (.obj [])

/-- JS `String.prototype.startsWith`, modelled over the character list so
that it is kernel-reducible. -/
def strStartsWith (s pre : String) : Bool :=
  pre.toList.isPrefixOf s.toList

/-- `isUrl` from `load.js`. -/
def isUrl (loc : String) : Bool :=
  strStartsWith loc "http://" || strStartsWith loc "https://"

/-- Model of Node's `path.resolve(baseDir, loc)` for the shapes this
resolver meets (absolute `baseDir`, plain relative `loc`): an absolute
location is returned unchanged, otherwise it is joined to `baseDir` with a
slash.  Dot-segment normalization is not modelled; no claim depends on it. -/
def pathResolve (baseDir loc : String) : String :=
  if strStartsWith loc "/" then loc else baseDir ++ "/" ++ loc

/-- `absoluteLocation` from `load.js`: URLs unchanged, relative paths
resolved against the base directory. -/
def absoluteLocation (loc baseDir : String) : String :=
  if isUrl loc then loc else pathResolve baseDir loc

/-- The prefix of `s` up to and including its last slash: the URL branch of
`baseDirOf` (truncate the pathname after its last slash) for plain URLs
without query or fragment. -/
def upToLastSlashIncl (s : String) : String :=
  ⟨(s.toList.reverse.dropWhile (fun c => c ≠ '/')).reverse⟩

/-- Model of Node's `path.dirname`: strip the last slash-separated
component (for the absolute multi-component paths this resolver meets). -/
def pathDirname (s : String) : String :=
  ⟨((s.toList.reverse.dropWhile (fun c => c ≠ '/')).drop 1).reverse⟩

/-- `baseDirOf` from `load.js`: base for resolving further relative imports
found inside the document at `absLoc`. -/
def baseDirOf (absLoc : String) : String :=
  if isUrl absLoc then upToLastSlashIncl absLoc else pathDirname absLoc

/-- `fetchSource` from `load.js`: document text of a location, or a
location-qualified error when the location is unreachable. -/
def fetchSource (env : Env) (absLoc : String) : Except Err Doc :=
  match env.find? (fun kv => kv.1 == absLoc) with
  | some kv => .ok kv.2
  | none => .error (.fetchErr absLoc)

/-- `ensureSchema` from `load.js`, with the strict-mode semantics of its two
property writes made explicit: creating `types`/`schema` on a truthy
primitive receiver throws a TypeError (`typeErr`); an array receiver
accepts the write, but the property is invisible to every later read
modelled here, so the array is left unchanged and the fresh `{}` schema is
returned.  Returns the updated definitions node and its schema node. -/
def ensureSchema (defs : JVal) : Except Err (JVal × JVal) :=
  match defs with
  | .obj kvs =>
    let defs0 : JVal := .obj kvs
    let t0 := jget defs0 "types"
    if truthy t0 then
      match t0 with
      | .obj tkvs =>
        let s := jget (.obj tkvs) "schema"
        if truthy s then .ok (defs0, s)
        else .ok (jset defs0 "types" (jset (.obj tkvs) "schema" (.obj [])), .obj [])
      | .arr _ => .ok (defs0, .obj [])
      | _ => .error .typeErr
    else
      .ok (jset defs0 "types" (.obj [("schema", .obj [])]), .obj [])
  | .arr items => .ok (.arr items, .obj [])
  | _ => .error .typeErr

/-- The schema-level declaration keys merged by `mergeSchema`. -/
def XSD_TYPE_KEYS : List String :=
  ["element", "complexType", "simpleType", "group", "attributeGroup"]

/-- The document-level declaration keys merged by `mergeWsdlDefs`. -/
def WSDL_DEF_KEYS : List String :=
  ["message", "portType", "binding", "service"]

/-- One key of `mergeSchema`: append the source's items to the
destination's, skipping keys with no source items. -/
def mergeSchemaKey (src dest : JVal) (key : String) : JVal :=
  let srcItems := jarr (jget src key)
  if srcItems.isEmpty then dest
  else jset dest key (.arr (jarr (jget dest key) ++ srcItems))

/-- `mergeSchema` from `load.js`: concatenate top-level XSD declarations of
`src` onto `dest`, key by key, with no name deduplication. -/
def mergeSchema (dest src : JVal) : JVal :=
  XSD_TYPE_KEYS.foldl (mergeSchemaKey src) dest

/-- The declared-name key of a node as stored in the dedup `Set`:
`n['@_name']` is a string when the attribute is present and `undefined`
(here `none`) otherwise. -/
def nameKey (n : JVal) : Option String :=
  match jget n "@_name" with
  | .str s => some s
  | _ => none

/-- One key of `mergeWsdlDefs`: append the source's items whose declared
name is not already present in the destination. -/
def mergeWsdlDefsKey (src dest : JVal) (key : String) : JVal :=
  let srcItems := jarr (jget src key)
  if srcItems.isEmpty then dest
  else
    let destItems := jarr (jget dest key)
    let existingNames := destItems.map nameKey
    let newItems := srcItems.filter fun n => !(existingNames.contains (nameKey n))
    jset dest key (.arr (destItems ++ newItems))

/-- `mergeWsdlDefs` from `load.js`: append WSDL definition nodes from `src`
onto `dest`, deduplicating by declared name against the destination. -/
def mergeWsdlDefs (dest src : JVal) : JVal :=
  WSDL_DEF_KEYS.foldl (mergeWsdlDefsKey src) dest

/-- The loop body of `resolveXsdImports`, iterating the snapshot of the
schema's import/include nodes: skip a node without a truthy schemaLocation,
skip an already-visited absolute location, otherwise mark visited, fetch,
parse as a standalone schema, resolve that schema's own imports through
`next` (one fuel level down), and merge its declarations into the schema. -/
def xsdGo (env : Env)
    (next : JVal → String → List String → Except Err (JVal × List String)) :
    List JVal → JVal → String → List String → Except Err (JVal × List String)
  | [], schema, _, visited => .ok (schema, visited)
  | imp :: rest, schema, baseDir, visited =>
    let loc := jget imp "@_schemaLocation"
    if ¬ truthy loc then xsdGo env next rest schema baseDir visited
    else
      let absLoc := absoluteLocation (jstr loc) baseDir
      if absLoc ∈ visited then xsdGo env next rest schema baseDir visited
      else
        match fetchSource env absLoc with
        | .error e => .error e
        | .ok d =>
          match parseXsd d with
          | .error e => .error e
          | .ok importedSchema =>
            match next importedSchema (baseDirOf absLoc) (absLoc :: visited) with
            | .error e => .error e
            | .ok (resolved, v2) =>
              xsdGo env next rest (mergeSchema schema resolved) baseDir v2

/-- The loop body of `resolveWsdlImports`, iterating the snapshot of the
definitions' import nodes: skip a node without a truthy location, skip an
already-visited absolute location, otherwise mark visited, fetch, fully
resolve the imported document through `next` (one fuel level down), and
merge its definitions into `defs`. -/
def wsdlGo (env : Env)
    (next : Doc → String → List String → Except Err (JVal × List String)) :
    List JVal → JVal → String → List String → Except Err (JVal × List String)
  | [], defs, _, visited => .ok (defs, visited)
  | imp :: rest, defs, baseDir, visited =>
    let loc := jget imp "@_location"
    if ¬ truthy loc then wsdlGo env next rest defs baseDir visited
    else
      let absLoc := absoluteLocation (jstr loc) baseDir
      if absLoc ∈ visited then wsdlGo env next rest defs baseDir visited
      else
        match fetchSource env absLoc with
        | .error e => .error e
        | .ok d =>
          match next d (baseDirOf absLoc) (absLoc :: visited) with
          | .error e => .error e
          | .ok (importedRaw, v2) =>
            wsdlGo env next rest
              (mergeWsdlDefs defs (jget importedRaw "definitions")) baseDir v2

/-- Reflect the in-place mutation of the schema node through its aliasing
into the tree: write the resolved schema back at `defs.types.schema`. -/
def putSchema (defs schema : JVal) : JVal :=
  jset defs "types" (jset (jget defs "types") "schema" schema)

/-- The entry points at one fuel level: `rWsdl` is `resolveWsdl`, `rXsd` is
`resolveXsdImports`. -/
structure Resolvers where
  rWsdl : Doc → String → List String → Except Err (JVal × List String)
  rXsd : JVal → String → List String → Except Err (JVal × List String)

/-- The fuel-exhausted bottom of the stratification. -/
def noFuel : Resolvers :=
  { rWsdl := fun _ _ _ => .error .outOfFuel
    rXsd := fun _ _ _ => .error .outOfFuel }

/-- The mutually recursive `resolveWsdl` / `resolveXsdImports` /
`resolveWsdlImports` of `load.js`, stratified by a fuel level consumed at
each recursive descent into an imported document or schema.  `resolveWsdl`
parses, locates/creates the schema node, resolves schema-level then
document-level imports, and returns the merged tree with the threaded
visited set. -/
def mkResolvers (env : Env) : Nat → Resolvers
  | 0 => noFuel
  | fuel + 1 =>
    let prev := mkResolvers env fuel
    let resolveXsdImports :
        JVal → String → List String → Except Err (JVal × List String) :=
      fun schema baseDir visited =>
        xsdGo env prev.rXsd
          (jarr (jget schema "import") ++ jarr (jget schema "include"))
          schema baseDir visited
    { rXsd := resolveXsdImports
      rWsdl := fun doc baseDir visited =>
        match parseWsdl doc with
        | .error e => .error e
        | .ok raw =>
          match ensureSchema (jget raw "definitions") with
          | .error e => .error e
          | .ok (defs1, schema) =>
            match resolveXsdImports schema baseDir visited with
            | .error e => .error e
            | .ok (schema2, v1) =>
              let defs2 := putSchema defs1 schema2
              match wsdlGo env prev.rWsdl (jarr (jget defs2 "import"))
                  defs2 baseDir v1 with
              | .error e => .error e
              | .ok (defs3, v2) => .ok (jset raw "definitions" defs3, v2) }

/-- `loadWsdl` from `load.js`: the public entry point, with a fresh visited
set scoped to this call.  The fuel `env.length + 2` never runs out (see the
adequacy theorem for claim C2). -/
def loadWsdl (env : Env) (doc : Doc) (baseDir : String) :
    Except Err (JVal × List String) :=
  (mkResolvers env (env.length + 2)).rWsdl doc baseDir []

/-- Number of environment entries whose location is not yet visited: the
decreasing measure of the recursive resolution. -/
def unvisited (env : Env) (visited : List String) : Nat :=
  ((env.map Prod.fst).filter (fun l => !(visited.contains l))).length

/-! ## Concrete documents and environments used by the claims -/

/-- A schema-level import node with a schemaLocation. -/
def xsdImport (loc : String) : JVal := .obj [("@_schemaLocation", .str loc)]

/-- A document-level import node with a location. -/
def wsdlImport (loc : String) : JVal := .obj [("@_location", .str loc)]

/-- A root document whose schema imports one XSD location. -/
def rootDocC1 : Doc := .parsed (.obj [("definitions", .obj [
  ("types", .obj [("schema", .obj [
    ("import", .arr [xsdImport "http://h/a.xsd"])])])])])

/-- An environment serving one schema with one named complexType. -/
def envC1 : Env := [("http://h/a.xsd", .parsed (.obj [("schema", .obj [
  ("complexType", .arr [.obj [("@_name", .str "AT")]])])]))]

/-- The merged tree `loadWsdl` returns on `envC1`/`rootDocC1`: the imported
complexType has been merged, and the import directive node remains. -/
def resolvedC1 : JVal := .obj [("definitions", .obj [("types", .obj [
  ("schema", .obj [
    ("import", .arr [xsdImport "http://h/a.xsd"]),
    ("complexType", .arr [.obj [("@_name", .str "AT")]])])])])]

/-- A root document whose definitions import one WSDL location. -/
def rootDocImp : Doc := .parsed (.obj [("definitions", .obj [
  ("import", .arr [wsdlImport "http://h/i.wsdl"])])])

/-- An environment serving a document that declares two messages with the
same name `M`. -/
def envC3 : Env := [("http://h/i.wsdl", .parsed (.obj [("definitions", .obj [
  ("message", .arr [.obj [("@_name", .str "M")],
                    .obj [("@_name", .str "M"),
                          ("part", .arr [.obj [("@_name", .str "p")]])]])])]))]

/-- Absolute location of schema B in the two-path scenario. -/
def locB : String := "http://h/b.xsd"

/-- Absolute location of schema C in the two-path scenario. -/
def locC : String := "http://h/c.xsd"

/-- A root document importing schema B directly and schema C, which imports
B again. -/
def rootDocC4 : Doc := .parsed (.obj [("definitions", .obj [
  ("types", .obj [("schema", .obj [
    ("import", .arr [xsdImport locB, xsdImport locC])])])])])

/-- Schema B declaring one complexType per given name. -/
def bDoc (names : List String) : Doc := .parsed (.obj [("schema", .obj [
  ("complexType", .arr (names.map fun n => .obj [("@_name", .str n)]))])])

/-- Schema C, importing schema B. -/
def cDoc : Doc := .parsed (.obj [("schema", .obj [
  ("import", .arr [xsdImport locB])])])

/-- The two-path environment: B reachable directly and through C. -/
def envC4 (names : List String) : Env := [(locB, bDoc names), (locC, cDoc)]

/-- The merged tree `loadWsdl` returns in the two-path scenario: B's
declarations appear exactly once. -/
def resolvedC4 (names : List String) : JVal := .obj [("definitions", .obj [
  ("types", .obj [("schema", .obj [
    ("import", .arr [xsdImport locB, xsdImport locC]),
    ("complexType", .arr (names.map fun nm =>
      .obj [("@_name", .str nm)]))])])])]

/-- A document with no import/include declarations whose `types` element
parsed to a truthy primitive (text content), the shape on which
`ensureSchema`'s strict-mode property write throws. -/
def docC5 : Doc := .parsed (.obj [("definitions", .obj [
  ("types", .str "stray text"),
  ("message", .arr [.obj [("@_name", .str "M")]])])])

/-- A well-behaved import-free parsed document used by the C5 witness. -/
def rawC5ok : JVal := .obj [("definitions", .obj [
  ("message", .arr [.obj [("@_name", .str "M")]])])]

/-- An environment whose one served location is malformed XML. -/
def envC6 : Env := [("http://h/i.wsdl", Doc.malformed)]

/-- A document whose definitions import the given location: one link of
an import-chain. -/
def chainDoc (loc : String) : Doc := .parsed (.obj [("definitions", .obj [
  ("import", .arr [wsdlImport loc])])])

/-- A chain environment: each listed location serves a document importing
the next listed location, the last one importing `lbad`. -/
def chainEnv : List String → String → Env
  | [], _ => []
  | l :: rest, lbad => (l, chainDoc (rest.headD lbad)) :: chainEnv rest lbad

/-- What resolution meets along a chain: every listed location fetches the
document importing its successor, and the final location `lbad` either is
unreachable (with `e` the location-qualified fetch error) or serves
malformed XML (with `e` the parser's location-free error). -/
def chainOkGen (env : Env) (e : Err) : List String → String → Prop
  | [], lbad => fetchSource env lbad = .error e ∨
      (fetchSource env lbad = .ok .malformed ∧ e = .parseErr)
  | l :: rest, lbad =>
      fetchSource env l = .ok (chainDoc (rest.headD lbad)) ∧
      chainOkGen env e rest lbad

/-- The model used by the C7 witness: one element-wrapped type and two
messages. -/
def modelC7 : Model :=
  { name := "", targetNamespace := "", documentation := ""
    types := [{ name := "AddRequest", kind := "element", documentation := ""
                fields := [{ name := "a", type := "double", minOccurs := "1",
                             maxOccurs := "1", documentation := "" },
                           { name := "b", type := "double", minOccurs := "1",
                             maxOccurs := "1", documentation := "" }]
                enumerations := [] }]
    messages := [{ name := "AddInput",
                   parts := [{ name := "p", element := "AddRequest", type := "" }] },
                 { name := "Dangling",
                   parts := [{ name := "q", element := "", type := "Missing" }] }]
    operations := [], bindings := [], endpoints := [] }

/-- The model used by the C8 witness: a type whose field references the
type itself. -/
def modelC8 : Model :=
  { name := "", targetNamespace := "", documentation := ""
    types := [{ name := "Node", kind := "complexType", documentation := ""
                fields := [{ name := "child", type := "Node", minOccurs := "0",
                             maxOccurs := "1", documentation := "" }]
                enumerations := [] }]
    messages := [{ name := "GetNode",
                   parts := [{ name := "p", element := "", type := "Node" }] }]
    operations := [], bindings := [], endpoints := [] }

/-- The model used by the C10 witness: duplicate type and message names. -/
def modelC10 : Model :=
  { name := "", targetNamespace := "", documentation := ""
    types := [{ name := "T", kind := "complexType", documentation := "first"
                fields := [], enumerations := [] },
              { name := "T", kind := "simpleType", documentation := "second"
                fields := [], enumerations := ["x"] }]
    messages := [{ name := "M", parts := [] },
                 { name := "M",
                   parts := [{ name := "p", element := "", type := "T" }] }]
    operations := [], bindings := [], endpoints := [] }

/-- The destination definitions node of the C3 witness: one message `A`. -/
def destW : JVal := .obj [("message", .arr [.obj [("@_name", .str "A")]])]

/-- The incoming definitions node of the C3 witness: a message also named
`A` (to be dropped) and a message `B` (to be kept). -/
def srcW : JVal := .obj [("message", .arr [
  .obj [("@_name", .str "A"), ("k", .str "dup")],
  .obj [("@_name", .str "B")]])]

/-- The binding node used by the C9 witness: the outer node carries a style
attribute, its protocol sub-descriptor carries only a transport. -/
def bindC9 : JVal := .obj [
  ("@_name", .str "B"),
  ("@_type", .str "tns:PT"),
  ("@_style", .str "rpc"),
  ("binding", .arr [.obj [
    ("@_transport", .str "http://schemas.xmlsoap.org/soap/http")]])]

/-! ## Basic lemmas on the tree accessors -/

theorem findVal_setKV_ne (kvs : List (String × JVal)) (k k' : String) (v : JVal)
    (h : k' ≠ k) : findVal (setKV kvs k v) k' = findVal kvs k' := by
  induction kvs with
  | nil => simp [setKV, findVal, Ne.symm h]
  | cons kv rest ih =>
    by_cases hk : kv.1 = k
    · simp [setKV, hk, findVal, Ne.symm h, ih]
    · simp only [setKV, hk, if_false]
      by_cases hk' : kv.1 = k'
      · simp [findVal, hk']
      · simp [findVal, hk', ih]

theorem jget_jset_ne (v : JVal) (k k' : String) (x : JVal) (h : k' ≠ k) :
    jget (jset v k x) k' = jget v k' := by
  cases v <;> simp [jset, jget]
  exact findVal_setKV_ne _ _ _ _ h

theorem findVal_setKV_self (kvs : List (String × JVal)) (k : String) (v : JVal) :
    findVal (setKV kvs k v) k = v := by
  induction kvs with
  | nil => simp [setKV, findVal]
  | cons kv rest ih =>
    by_cases hk : kv.1 = k
    · simp [setKV, hk, findVal]
    · simp [setKV, hk, findVal, ih]

theorem jget_jset_self (kvs : List (String × JVal)) (k : String) (x : JVal) :
    jget (jset (.obj kvs) k x) k = x := by
  simp [jset, jget, findVal_setKV_self]

/-! ## Merging touches only its own keys -/

theorem mergeSchemaKey_jget_ne (src dest : JVal) (key k : String) (h : k ≠ key) :
    jget (mergeSchemaKey src dest key) k = jget dest k := by
  simp only [mergeSchemaKey]
  split
  · rfl
  · exact jget_jset_ne _ _ _ _ h

theorem mergeSchema_jget_ne (dest src : JVal) (k : String)
    (h : k ∉ XSD_TYPE_KEYS) : jget (mergeSchema dest src) k = jget dest k := by
  simp only [XSD_TYPE_KEYS, List.mem_cons, List.not_mem_nil, or_false] at h
  push_neg at h
  obtain ⟨h1, h2, h3, h4, h5⟩ := h
  simp [mergeSchema, XSD_TYPE_KEYS, mergeSchemaKey_jget_ne, h1, h2, h3, h4, h5]

theorem mergeWsdlDefsKey_jget_ne (src dest : JVal) (key k : String)
    (h : k ≠ key) : jget (mergeWsdlDefsKey src dest key) k = jget dest k := by
  simp only [mergeWsdlDefsKey]
  split
  · rfl
  · exact jget_jset_ne _ _ _ _ h

theorem mergeWsdlDefs_jget_ne (dest src : JVal) (k : String)
    (h : k ∉ WSDL_DEF_KEYS) : jget (mergeWsdlDefs dest src) k = jget dest k := by
  simp only [WSDL_DEF_KEYS, List.mem_cons, List.not_mem_nil, or_false] at h
  push_neg at h
  obtain ⟨h1, h2, h3, h4⟩ := h
  simp [mergeWsdlDefs, WSDL_DEF_KEYS, mergeWsdlDefsKey_jget_ne, h1, h2, h3, h4]

/-! ## The visited set only grows -/

theorem xsdGo_visited_mono (env : Env)
    (next : JVal → String → List String → Except Err (JVal × List String))
    (hnext : ∀ s b v r v', next s b v = .ok (r, v') → v ⊆ v') :
    ∀ (imps : List JVal) (schema : JVal) (b : String) (v : List String)
      (r : JVal) (v' : List String),
      xsdGo env next imps schema b v = .ok (r, v') → v ⊆ v' := by
  intro imps
  induction imps with
  | nil =>
    intro schema b v r v' h
    simp only [xsdGo] at h
    cases h
    exact List.Subset.refl v
  | cons imp rest ih =>
    intro schema b v r v' h
    simp only [xsdGo] at h
    split at h
    · exact ih _ _ _ _ _ h
    · split at h
      · exact ih _ _ _ _ _ h
      · split at h
        · cases h
        · split at h
          · cases h
          · split at h
            · cases h
            · rename_i hnx
              have h1 := hnext _ _ _ _ _ hnx
              have h2 := ih _ _ _ _ _ h
              exact fun a ha => h2 (h1 (List.mem_cons_of_mem _ ha))

theorem wsdlGo_visited_mono (env : Env)
    (next : Doc → String → List String → Except Err (JVal × List String))
    (hnext : ∀ d b v r v', next d b v = .ok (r, v') → v ⊆ v') :
    ∀ (imps : List JVal) (defs : JVal) (b : String) (v : List String)
      (r : JVal) (v' : List String),
      wsdlGo env next imps defs b v = .ok (r, v') → v ⊆ v' := by
  intro imps
  induction imps with
  | nil =>
    intro defs b v r v' h
    simp only [wsdlGo] at h
    cases h
    exact List.Subset.refl v
  | cons imp rest ih =>
    intro defs b v r v' h
    simp only [wsdlGo] at h
    split at h
    · exact ih _ _ _ _ _ h
    · split at h
      · exact ih _ _ _ _ _ h
      · split at h
        · cases h
        · split at h
          · cases h
          · rename_i hnx
            have h1 := hnext _ _ _ _ _ hnx
            have h2 := ih _ _ _ _ _ h
            exact fun a ha => h2 (h1 (List.mem_cons_of_mem _ ha))

theorem mkResolvers_succ_rXsd (env : Env) (fuel : Nat) (schema : JVal)
    (baseDir : String) (visited : List String) :
    (mkResolvers env (fuel + 1)).rXsd schema baseDir visited =
      xsdGo env (mkResolvers env fuel).rXsd
        (jarr (jget schema "import") ++ jarr (jget schema "include"))
        schema baseDir visited := rfl

theorem mkResolvers_succ_rWsdl (env : Env) (fuel : Nat) (doc : Doc)
    (baseDir : String) (visited : List String) :
    (mkResolvers env (fuel + 1)).rWsdl doc baseDir visited =
      match parseWsdl doc with
      | .error e => .error e
      | .ok raw =>
        match ensureSchema (jget raw "definitions") with
        | .error e => .error e
        | .ok (defs1, schema) =>
          match xsdGo env (mkResolvers env fuel).rXsd
              (jarr (jget schema "import") ++ jarr (jget schema "include"))
              schema baseDir visited with
          | .error e => .error e
          | .ok (schema2, v1) =>
            match wsdlGo env (mkResolvers env fuel).rWsdl
                (jarr (jget (putSchema defs1 schema2) "import"))
                (putSchema defs1 schema2) baseDir v1 with
            | .error e => .error e
            | .ok (defs3, v2) => .ok (jset raw "definitions" defs3, v2) := rfl

theorem mkResolvers_visited_mono (env : Env) : ∀ (fuel : Nat),
    (∀ doc b v r v', (mkResolvers env fuel).rWsdl doc b v = .ok (r, v') → v ⊆ v') ∧
    (∀ schema b v r v', (mkResolvers env fuel).rXsd schema b v = .ok (r, v') → v ⊆ v') := by
  intro fuel
  induction fuel with
  | zero =>
    constructor <;> intro _ _ _ _ _ h <;> simp [mkResolvers, noFuel] at h
  | succ fuel ih =>
    constructor
    · intro doc b v r v' h
      rw [mkResolvers_succ_rWsdl] at h
      split at h
      · cases h
      · split at h
        · cases h
        · split at h
          · cases h
          · rename_i hxsd
            split at h
            · cases h
            · rename_i hwsdl
              cases h
              have h1 := xsdGo_visited_mono env _ ih.2 _ _ _ _ _ _ hxsd
              have h2 := wsdlGo_visited_mono env _ ih.1 _ _ _ _ _ _ hwsdl
              exact h1.trans h2
    · intro schema b v r v' h
      rw [mkResolvers_succ_rXsd] at h
      exact xsdGo_visited_mono env _ ih.2 _ _ _ _ _ _ h

/-! ## Fuel adequacy: the fuel used by `loadWsdl` never runs out

The measure is the number of environment locations not yet visited; every
descent into an imported document first adds a fresh location from the
environment to the visited set, so the measure strictly decreases. -/

theorem filter_length_mono {l : List String} {p q : String → Bool}
    (h : ∀ x, p x = true → q x = true) :
    (l.filter p).length ≤ (l.filter q).length := by
  induction l with
  | nil => simp
  | cons a rest ih =>
    by_cases hp : p a = true
    · simp [List.filter, hp, h a hp]
      omega
    · simp only [List.filter, hp]
      by_cases hq : q a = true
      · simp [hq]
        omega
      · simp [hq]
        exact ih

theorem filter_length_lt {l : List String} {p q : String → Bool}
    (h : ∀ x, p x = true → q x = true) (a : String) (ha : a ∈ l)
    (hpa : p a = false) (hqa : q a = true) :
    (l.filter p).length < (l.filter q).length := by
  induction l with
  | nil => cases ha
  | cons b rest ih =>
    rcases List.mem_cons.mp ha with hab | harest
    · subst hab
      simp only [List.filter, hpa, hqa]
      have := @filter_length_mono rest _ _ h
      simp
      omega
    · by_cases hp : p b = true
      · simp only [List.filter, hp, h b hp]
        simpa using ih harest
      · simp only [List.filter, hp]
        by_cases hq : q b = true
        · simp only [hq]
          have := ih harest
          simp
          omega
        · simp only [hq]
          exact ih harest

theorem unvisited_cons_lt (env : Env) {a : String} {v : List String}
    (hmem : a ∈ env.map Prod.fst) (hnv : a ∉ v) :
    unvisited env (a :: v) < unvisited env v := by
  refine filter_length_lt ?_ a hmem ?_ ?_
  · intro x hx
    simp at hx ⊢
    exact hx.2
  · simp
  · simpa using hnv

theorem unvisited_subset_le (env : Env) {v v' : List String} (h : v ⊆ v') :
    unvisited env v' ≤ unvisited env v := by
  apply filter_length_mono
  intro x hx
  simp at hx ⊢
  exact fun hxv => hx (h hxv)

theorem unvisited_le_length (env : Env) (v : List String) :
    unvisited env v ≤ env.length := by
  calc unvisited env v ≤ (env.map Prod.fst).length := List.length_filter_le _ _
  _ = env.length := List.length_map _ _

theorem fetchSource_ok_mem {env : Env} {absLoc : String} {d : Doc}
    (h : fetchSource env absLoc = .ok d) : absLoc ∈ env.map Prod.fst := by
  unfold fetchSource at h
  split at h
  · rename_i kv hf
    have hmem := List.mem_of_find?_eq_some hf
    have heq := List.find?_some hf
    simp only [beq_iff_eq] at heq
    exact heq ▸ List.mem_map_of_mem Prod.fst hmem
  · cases h

theorem fetchSource_error {env : Env} {absLoc : String} {e : Err}
    (h : fetchSource env absLoc = .error e) : e = .fetchErr absLoc := by
  unfold fetchSource at h
  split at h
  · cases h
  · cases h
    rfl

theorem parseXsd_error {d : Doc} {e : Err} (h : parseXsd d = .error e) :
    e = .parseErr := by
  cases d with
  | malformed => cases h; rfl
  | parsed t =>
    simp only [parseXsd] at h
    split at h
    · cases h
    · split at h <;> cases h

theorem parseWsdl_error_ne_outOfFuel {d : Doc} {e : Err}
    (h : parseWsdl d = .error e) : e ≠ .outOfFuel := by
  cases d with
  | malformed => cases h; simp
  | parsed t =>
    simp only [parseWsdl] at h
    split at h
    · split at h
      · cases h
      · cases h
        simp
    · cases h
      simp
    · cases h
      simp

theorem ensureSchema_error {defs : JVal} {e : Err}
    (h : ensureSchema defs = .error e) : e = .typeErr := by
  cases defs with
  | obj kvs =>
    simp only [ensureSchema] at h
    split at h
    · split at h
      · split at h <;> cases h
      · cases h
      · cases h
        rfl
    · cases h
  | arr items => cases h
  | null => cases h; rfl
  | str s => cases h; rfl

theorem xsdGo_nofuel (env : Env)
    (next : JVal → String → List String → Except Err (JVal × List String))
    (m : Nat)
    (hmono : ∀ s b v r v', next s b v = .ok (r, v') → v ⊆ v')
    (hnext : ∀ s b v, unvisited env v + 1 ≤ m → next s b v ≠ .error .outOfFuel) :
    ∀ (imps : List JVal) (schema : JVal) (b : String) (v : List String),
      unvisited env v ≤ m → xsdGo env next imps schema b v ≠ .error .outOfFuel := by
  intro imps
  induction imps with
  | nil =>
    intro schema b v _ h
    simp [xsdGo] at h
  | cons imp rest ih =>
    intro schema b v hv
    simp only [xsdGo]
    split
    · exact ih _ _ _ hv
    · split
      · exact ih _ _ _ hv
      · rename_i hloc hnin
        split
        · rename_i e hferr
          have := fetchSource_error hferr
          subst this
          simp
        · rename_i d hfok
          have hmem := fetchSource_ok_mem hfok
          have hlt := unvisited_cons_lt env hmem hnin
          split
          · rename_i e hperr
            have := parseXsd_error hperr
            subst this
            simp
          · split
            · rename_i e hnerr
              intro hcon
              apply hnext _ _ _ (by omega) (hcon ▸ hnerr)
            · rename_i resolved v2 hnok
              have hsub := hmono _ _ _ _ _ hnok
              have hle := unvisited_subset_le env hsub
              exact ih _ _ _ (by omega)

theorem wsdlGo_nofuel (env : Env)
    (next : Doc → String → List String → Except Err (JVal × List String))
    (m : Nat)
    (hmono : ∀ d b v r v', next d b v = .ok (r, v') → v ⊆ v')
    (hnext : ∀ d b v, unvisited env v + 2 ≤ m → next d b v ≠ .error .outOfFuel) :
    ∀ (imps : List JVal) (defs : JVal) (b : String) (v : List String),
      unvisited env v + 1 ≤ m → wsdlGo env next imps defs b v ≠ .error .outOfFuel := by
  intro imps
  induction imps with
  | nil =>
    intro defs b v _ h
    simp [wsdlGo] at h
  | cons imp rest ih =>
    intro defs b v hv
    simp only [wsdlGo]
    split
    · exact ih _ _ _ hv
    · split
      · exact ih _ _ _ hv
      · rename_i hloc hnin
        split
        · rename_i e hferr
          have := fetchSource_error hferr
          subst this
          simp
        · rename_i d hfok
          have hmem := fetchSource_ok_mem hfok
          have hlt := unvisited_cons_lt env hmem hnin
          split
          · rename_i e hnerr
            intro hcon
            apply hnext _ _ _ (by omega) (hcon ▸ hnerr)
          · rename_i importedRaw v2 hnok
            have hsub := hmono _ _ _ _ _ hnok
            have hle := unvisited_subset_le env hsub
            exact ih _ _ _ (by omega)

theorem mkResolvers_nofuel (env : Env) : ∀ (fuel : Nat),
    (∀ schema b v, unvisited env v + 1 ≤ fuel →
      (mkResolvers env fuel).rXsd schema b v ≠ .error .outOfFuel) ∧
    (∀ doc b v, unvisited env v + 2 ≤ fuel →
      (mkResolvers env fuel).rWsdl doc b v ≠ .error .outOfFuel) := by
  intro fuel
  induction fuel with
  | zero =>
    constructor <;> intro _ _ _ hfuel <;> omega
  | succ fuel ih =>
    have hmonoX := (mkResolvers_visited_mono env fuel).2
    have hmonoW := (mkResolvers_visited_mono env fuel).1
    constructor
    · intro schema b v hfuel
      rw [mkResolvers_succ_rXsd]
      exact xsdGo_nofuel env _ fuel hmonoX ih.1 _ _ _ _ (by omega)
    · intro doc b v hfuel
      rw [mkResolvers_succ_rWsdl]
      split
      · rename_i e hperr
        simpa using parseWsdl_error_ne_outOfFuel hperr
      · split
        · rename_i e heerr
          have := ensureSchema_error heerr
          subst this
          simp
        · split
          · rename_i e hxerr
            intro hcon
            apply xsdGo_nofuel env _ fuel hmonoX ih.1 _ _ _ _ (by omega : unvisited env v ≤ fuel)
            exact hcon ▸ hxerr
          · rename_i schema2 v1 hxok
            have hsub := xsdGo_visited_mono env _ hmonoX _ _ _ _ _ _ hxok
            have hle := unvisited_subset_le env hsub
            split
            · rename_i e hwerr
              intro hcon
              apply wsdlGo_nofuel env _ fuel hmonoW ih.2 _ _ _ _
                (by omega : unvisited env v1 + 1 ≤ fuel)
              exact hcon ▸ hwerr
            · simp

/-! ## The loops touch only their merge keys, and visit every located
directive they iterate -/

theorem xsdGo_jget_preserved (env : Env)
    (next : JVal → String → List String → Except Err (JVal × List String))
    (k : String) (hk : k ∉ XSD_TYPE_KEYS) :
    ∀ (imps : List JVal) (schema : JVal) (b : String) (v : List String)
      (r : JVal) (v' : List String),
      xsdGo env next imps schema b v = .ok (r, v') → jget r k = jget schema k := by
  intro imps
  induction imps with
  | nil =>
    intro schema b v r v' h
    simp only [xsdGo] at h
    cases h
    rfl
  | cons imp rest ih =>
    intro schema b v r v' h
    simp only [xsdGo] at h
    split at h
    · exact ih _ _ _ _ _ h
    · split at h
      · exact ih _ _ _ _ _ h
      · split at h
        · cases h
        · split at h
          · cases h
          · split at h
            · cases h
            · rename_i resolved v2 hnok
              rw [ih _ _ _ _ _ h]
              exact mergeSchema_jget_ne _ _ _ hk

theorem wsdlGo_jget_preserved (env : Env)
    (next : Doc → String → List String → Except Err (JVal × List String))
    (k : String) (hk : k ∉ WSDL_DEF_KEYS) :
    ∀ (imps : List JVal) (defs : JVal) (b : String) (v : List String)
      (r : JVal) (v' : List String),
      wsdlGo env next imps defs b v = .ok (r, v') → jget r k = jget defs k := by
  intro imps
  induction imps with
  | nil =>
    intro defs b v r v' h
    simp only [wsdlGo] at h
    cases h
    rfl
  | cons imp rest ih =>
    intro defs b v r v' h
    simp only [wsdlGo] at h
    split at h
    · exact ih _ _ _ _ _ h
    · split at h
      · exact ih _ _ _ _ _ h
      · split at h
        · cases h
        · split at h
          · cases h
          · rename_i importedRaw v2 hnok
            rw [ih _ _ _ _ _ h]
            exact mergeWsdlDefs_jget_ne _ _ _ hk

theorem xsdGo_visits (env : Env)
    (next : JVal → String → List String → Except Err (JVal × List String))
    (hmono : ∀ s b v r v', next s b v = .ok (r, v') → v ⊆ v') :
    ∀ (imps : List JVal) (schema : JVal) (b : String) (v : List String)
      (r : JVal) (v' : List String),
      xsdGo env next imps schema b v = .ok (r, v') →
      ∀ imp ∈ imps, truthy (jget imp "@_schemaLocation") →
        absoluteLocation (jstr (jget imp "@_schemaLocation")) b ∈ v' := by
  intro imps
  induction imps with
  | nil =>
    intro schema b v r v' _ imp hmem
    cases hmem
  | cons imp0 rest ih =>
    intro schema b v r v' h imp hmem hloc
    rcases List.mem_cons.mp hmem with heq | hrest
    · subst heq
      simp only [xsdGo] at h
      split at h
      · rename_i hnl
        exact absurd hloc hnl
      · split at h
        · rename_i hin
          exact xsdGo_visited_mono env next hmono _ _ _ _ _ _ h hin
        · split at h
          · cases h
          · split at h
            · cases h
            · split at h
              · cases h
              · rename_i resolved v2 hnok
                have h1 : absoluteLocation (jstr (jget imp "@_schemaLocation")) b ∈
                    absoluteLocation (jstr (jget imp "@_schemaLocation")) b :: v :=
                  List.mem_cons_self _ _
                have h2 := hmono _ _ _ _ _ hnok
                have h3 := xsdGo_visited_mono env next hmono _ _ _ _ _ _ h
                exact h3 (h2 h1)
    · simp only [xsdGo] at h
      split at h
      · exact ih _ _ _ _ _ h imp hrest hloc
      · split at h
        · exact ih _ _ _ _ _ h imp hrest hloc
        · split at h
          · cases h
          · split at h
            · cases h
            · split at h
              · cases h
              · exact ih _ _ _ _ _ h imp hrest hloc

theorem wsdlGo_visits (env : Env)
    (next : Doc → String → List String → Except Err (JVal × List String))
    (hmono : ∀ d b v r v', next d b v = .ok (r, v') → v ⊆ v') :
    ∀ (imps : List JVal) (defs : JVal) (b : String) (v : List String)
      (r : JVal) (v' : List String),
      wsdlGo env next imps defs b v = .ok (r, v') →
      ∀ imp ∈ imps, truthy (jget imp "@_location") →
        absoluteLocation (jstr (jget imp "@_location")) b ∈ v' := by
  intro imps
  induction imps with
  | nil =>
    intro defs b v r v' _ imp hmem
    cases hmem
  | cons imp0 rest ih =>
    intro defs b v r v' h imp hmem hloc
    rcases List.mem_cons.mp hmem with heq | hrest
    · subst heq
      simp only [wsdlGo] at h
      split at h
      · rename_i hnl
        exact absurd hloc hnl
      · split at h
        · rename_i hin
          exact wsdlGo_visited_mono env next hmono _ _ _ _ _ _ h hin
        · split at h
          · cases h
          · split at h
            · cases h
            · rename_i importedRaw v2 hnok
              have h1 : absoluteLocation (jstr (jget imp "@_location")) b ∈
                  absoluteLocation (jstr (jget imp "@_location")) b :: v :=
                List.mem_cons_self _ _
              have h2 := hmono _ _ _ _ _ hnok
              have h3 := wsdlGo_visited_mono env next hmono _ _ _ _ _ _ h
              exact h3 (h2 h1)
    · simp only [wsdlGo] at h
      split at h
      · exact ih _ _ _ _ _ h imp hrest hloc
      · split at h
        · exact ih _ _ _ _ _ h imp hrest hloc
        · split at h
          · cases h
          · split at h
            · cases h
            · exact ih _ _ _ _ _ h imp hrest hloc

/-! ## Shape facts about the parse and schema-creation steps -/

theorem parseWsdl_ok_obj {doc : Doc} {raw : JVal}
    (h : parseWsdl doc = .ok raw) : ∃ kvs, raw = .obj kvs := by
  cases doc with
  | malformed => cases h
  | parsed t =>
    simp only [parseWsdl] at h
    split at h
    · rename_i kvs
      split at h
      · cases h
        exact ⟨kvs, rfl⟩
      · cases h
    · cases h
    · cases h

/-- Writing back a schema at `definitions.types.schema` makes it readable
there, provided the `types` member is an object. -/
theorem putSchema_obj_types {dkvs : List (String × JVal)}
    {tkvs : List (String × JVal)}
    (h : jget (.obj dkvs) "types" = .obj tkvs) (s2 : JVal) :
    jget (jget (putSchema (.obj dkvs) s2) "types") "schema" = s2 := by
  unfold putSchema
  rw [h, jget_jset_self, jget_jset_self]

/-- After a successful `ensureSchema`, writing a schema value back through
`putSchema` either makes it readable at `definitions.types.schema` (the
object cases) or that path reads `undefined` (the array-`types` cases, where
the written property is invisible to the modelled reads). -/
theorem putSchema_jget_of_ensureSchema {defs defs1 schema : JVal}
    (h : ensureSchema defs = .ok (defs1, schema)) (s2 : JVal) :
    jget (jget (putSchema defs1 s2) "types") "schema" = s2 ∨
    (jget (jget (putSchema defs1 s2) "types") "schema" = JVal.null ∧
      jget (jget defs "types") "schema" = JVal.null) := by
  cases defs with
  | obj kvs =>
    simp only [ensureSchema] at h
    split at h
    · rename_i htruthy
      split at h
      · rename_i tkvs heq
        split at h
        · cases h
          exact Or.inl (putSchema_obj_types heq s2)
        · cases h
          refine Or.inl (@putSchema_obj_types _ (setKV tkvs "schema" (JVal.obj [])) ?_ s2)
          exact jget_jset_self kvs "types" _
      · rename_i items heq
        cases h
        right
        constructor
        · unfold putSchema
          rw [heq]
          rw [show jset (JVal.arr items) "schema" s2 = JVal.arr items from rfl]
          rw [jget_jset_self]
          rfl
        · rw [heq]
          rfl
      · cases h
    · cases h
      refine Or.inl (@putSchema_obj_types _
        [("schema", JVal.obj [])] ?_ s2)
      exact jget_jset_self kvs "types" _
  | arr items =>
    cases h
    right
    exact ⟨rfl, rfl⟩
  | null => cases h
  | str s => cases h

/-! ## JS `Map` lookup facts -/

theorem mapGet_foldl_skip {α : Type} (pairs : List (String × α)) (k : String)
    (h : ∀ kv ∈ pairs, kv.1 ≠ k) (acc : Option α) :
    pairs.foldl (fun acc kv => if kv.1 = k then some kv.2 else acc) acc = acc := by
  induction pairs generalizing acc with
  | nil => rfl
  | cons kv rest ih =>
    have hne : kv.1 ≠ k := h kv (List.mem_cons_self _ _)
    simp only [List.foldl_cons, if_neg hne]
    exact ih (fun kv hkv => h kv (List.mem_cons_of_mem _ hkv)) acc

theorem mapGet_eq_none {α : Type} (pairs : List (String × α)) (k : String)
    (h : ∀ kv ∈ pairs, kv.1 ≠ k) : mapGet pairs k = none :=
  mapGet_foldl_skip pairs k h none

theorem mapGet_last {α : Type} (p1 : List (String × α)) (k : String) (x : α)
    (p2 : List (String × α)) (h2 : ∀ kv ∈ p2, kv.1 ≠ k) :
    mapGet (p1 ++ (k, x) :: p2) k = some x := by
  unfold mapGet
  rw [List.foldl_append]
  simp only [List.foldl_cons, if_pos]
  exact mapGet_foldl_skip p2 k h2 (some x)

/-! ## The normalizer reads binding metadata only from the nested
sub-descriptor -/

theorem extractBindings_outer_congr (b : JVal) (k : String) (x : JVal)
    (hk1 : k ≠ "binding") (hk2 : k ≠ "@_name") (hk3 : k ≠ "@_type")
    (hk4 : k ≠ "operation") :
    extractBindings [jset b k x] = extractBindings [b] := by
  simp only [extractBindings, List.map]
  rw [jget_jset_ne b k "binding" x (Ne.symm hk1)]
  unfold attrOr
  rw [jget_jset_ne b k "@_name" x (Ne.symm hk2),
    jget_jset_ne b k "@_type" x (Ne.symm hk3),
    jget_jset_ne b k "operation" x (Ne.symm hk4)]

/-- Evaluate `attrOr` when the attribute is a present string. -/
theorem attrOr_of_str {v : JVal} {k s : String} (d : String)
    (h : jget v k = .str s) : attrOr v k d = s := by
  unfold attrOr
  rw [h]
  rfl

/-- Evaluate `attrOr` when the attribute is absent. -/
theorem attrOr_of_null {v : JVal} {k : String} (d : String)
    (h : jget v k = .null) : attrOr v k d = d := by
  unfold attrOr
  rw [h]

theorem isNull_iff (v : JVal) : isNull v = true ↔ v = .null := by
  cases v <;> simp [isNull]

/-- A successful `mapGet` pair is in the list. -/
theorem mapGet_foldl_mem {α : Type} :
    ∀ (pairs : List (String × α)) (k : String) (acc : Option α) (x : α),
      pairs.foldl (fun acc kv => if kv.1 = k then some kv.2 else acc) acc
        = some x → (k, x) ∈ pairs ∨ acc = some x := by
  intro pairs
  induction pairs with
  | nil => intro k acc x h; exact Or.inr h
  | cons kv rest ih =>
    intro k acc x h
    simp only [List.foldl_cons] at h
    rcases ih k _ x h with hmem | hacc
    · exact Or.inl (List.mem_cons_of_mem _ hmem)
    · by_cases hk : kv.1 = k
      · rw [if_pos hk] at hacc
        cases hacc
        left
        have : kv = (k, kv.2) := by
          rw [← hk]
        rw [← this]
        exact List.mem_cons_self _ _
      · rw [if_neg hk] at hacc
        exact Or.inr hacc

theorem mapGet_some_mem {α : Type} {pairs : List (String × α)} {k : String}
    {x : α} (h : mapGet pairs k = some x) : (k, x) ∈ pairs := by
  rcases mapGet_foldl_mem pairs k none x h with hmem | hacc
  · exact hmem
  · cases hacc

/-- The descriptor at position `i` of a successful `resolveMessageFields`
call, spelled out. -/
theorem resolveMessageFields_get {index : RefIndex} {messageName : String}
    {msg : Message} (hmsg : mapGet index.messageByName messageName = some msg)
    (i : Nat) (hi : i < msg.parts.length) :
    (resolveMessageFields messageName index).get? i = some (
      match mapGet index.typeByName
          (if (msg.parts.get ⟨i, hi⟩).element ≠ ""
           then (msg.parts.get ⟨i, hi⟩).element
           else (msg.parts.get ⟨i, hi⟩).type) with
      | none =>
        { partName := (msg.parts.get ⟨i, hi⟩).name
          typeName := if (msg.parts.get ⟨i, hi⟩).element ≠ ""
            then (msg.parts.get ⟨i, hi⟩).element
            else (msg.parts.get ⟨i, hi⟩).type
          fields := [], enumerations := [] }
      | some type0 =>
        { partName := (msg.parts.get ⟨i, hi⟩).name
          typeName := if (msg.parts.get ⟨i, hi⟩).element ≠ ""
            then (msg.parts.get ⟨i, hi⟩).element
            else (msg.parts.get ⟨i, hi⟩).type
          fields := type0.fields, enumerations := type0.enumerations }) := by
  simp only [resolveMessageFields, hmsg]
  rw [List.get?_map, List.get?_eq_get hi]
  rfl

/-! ## Claims -/

/-- C2: for every import graph, including cyclic and repeated-target graphs,
one top-level call to `loadWsdl` terminates.  In the fuel-indexed embedding
the recursion is stratified by a fuel consumed exactly at each descent into
a not-yet-visited location; this theorem shows the fuel `loadWsdl` uses
(`env.length + 2`) never runs out, for every environment (cyclic,
self-importing and repeated-target graphs included, since `env` and the
root document are arbitrary): the single visited set scoped to the call
bounds the recursion by the number of environment locations. -/
theorem claim_C2_loadWsdl_terminates (env : Env) (doc : Doc) (baseDir : String) :
    loadWsdl env doc baseDir ≠ .error .outOfFuel := by
  unfold loadWsdl
  apply (mkResolvers_nofuel env (env.length + 2)).2
  have h := unvisited_le_length env []
  omega

/-- C7: `resolveMessageFields` returns `[]` for an unknown message name (not
an error); for a known name (the last message so named, per JS `Map`
semantics) it returns one descriptor per part in part order, whose
`typeName` is the part's element reference if present else its type
reference, and whose fields/enumerations are those of the `TypeDef` matching
`typeName` in the index if one exists, else empty (a dangling reference is
not an error). -/
theorem claim_C7_resolveMessageFields (model : Model) (messageName : String) :
    ((∀ m ∈ model.messages, m.name ≠ messageName) →
      resolveMessageFields messageName (buildIndex model) = []) ∧
    (∀ (pre : List Message) (msg : Message) (post : List Message),
      model.messages = pre ++ msg :: post → msg.name = messageName →
      (∀ m ∈ post, m.name ≠ messageName) →
      (resolveMessageFields messageName (buildIndex model)).length
        = msg.parts.length ∧
      ∀ (i : Nat) (hi : i < msg.parts.length),
        ∃ (d : FieldDescriptor),
          (resolveMessageFields messageName (buildIndex model)).get? i
            = some d ∧
          d.partName = (msg.parts.get ⟨i, hi⟩).name ∧
          d.typeName = (if (msg.parts.get ⟨i, hi⟩).element ≠ ""
            then (msg.parts.get ⟨i, hi⟩).element
            else (msg.parts.get ⟨i, hi⟩).type) ∧
          ((∀ t ∈ model.types, t.name ≠ d.typeName) →
            d.fields = [] ∧ d.enumerations = []) ∧
          (∀ (tpre : List TypeDef) (t : TypeDef) (tpost : List TypeDef),
            model.types = tpre ++ t :: tpost → t.name = d.typeName →
            (∀ u ∈ tpost, u.name ≠ d.typeName) →
            d.fields = t.fields ∧ d.enumerations = t.enumerations)) := by
  constructor
  · intro h
    have hnone : mapGet (buildIndex model).messageByName messageName = none := by
      apply mapGet_eq_none
      intro kv hkv
      simp only [buildIndex, List.mem_map] at hkv
      obtain ⟨m, hm, rfl⟩ := hkv
      exact h m hm
    simp [resolveMessageFields, hnone]
  · intro pre msg post hsplit hname hpost
    have hsome : mapGet (buildIndex model).messageByName messageName = some msg := by
      have : (buildIndex model).messageByName
          = pre.map (fun m => (m.name, m)) ++ (messageName, msg)
            :: post.map (fun m => (m.name, m)) := by
        simp [buildIndex, hsplit, hname]
      rw [this]
      apply mapGet_last
      intro kv hkv
      simp only [List.mem_map] at hkv
      obtain ⟨m, hm, rfl⟩ := hkv
      exact hpost m hm
    constructor
    · simp [resolveMessageFields, hsome]
    · intro i hi
      cases hty : mapGet (buildIndex model).typeByName
          (if (msg.parts.get ⟨i, hi⟩).element ≠ ""
           then (msg.parts.get ⟨i, hi⟩).element
           else (msg.parts.get ⟨i, hi⟩).type) with
      | none =>
        refine ⟨{ partName := (msg.parts.get ⟨i, hi⟩).name
                  typeName := if (msg.parts.get ⟨i, hi⟩).element ≠ ""
                    then (msg.parts.get ⟨i, hi⟩).element
                    else (msg.parts.get ⟨i, hi⟩).type
                  fields := [], enumerations := [] }, ?_, rfl, rfl,
                fun _ => ⟨rfl, rfl⟩, ?_⟩
        · rw [resolveMessageFields_get hsome i hi, hty]
        · intro tpre t tpost htsplit htname htpost
          exfalso
          have htsome : mapGet (buildIndex model).typeByName
              (if (msg.parts.get ⟨i, hi⟩).element ≠ ""
               then (msg.parts.get ⟨i, hi⟩).element
               else (msg.parts.get ⟨i, hi⟩).type) = some t := by
            have harr : (buildIndex model).typeByName
                = tpre.map (fun u => (u.name, u))
                  ++ (t.name, t) :: tpost.map (fun u => (u.name, u)) := by
              simp [buildIndex, htsplit]
            rw [harr, htname]
            apply mapGet_last
            intro kv hkv
            simp only [List.mem_map] at hkv
            obtain ⟨u, hu, rfl⟩ := hkv
            exact htpost u hu
          rw [hty] at htsome
          cases htsome
      | some type0 =>
        refine ⟨{ partName := (msg.parts.get ⟨i, hi⟩).name
                  typeName := if (msg.parts.get ⟨i, hi⟩).element ≠ ""
                    then (msg.parts.get ⟨i, hi⟩).element
                    else (msg.parts.get ⟨i, hi⟩).type
                  fields := type0.fields
                  enumerations := type0.enumerations }, ?_, rfl, rfl, ?_, ?_⟩
        · rw [resolveMessageFields_get hsome i hi, hty]
        · intro habs
          exfalso
          have hmem := mapGet_some_mem hty
          simp only [buildIndex, List.mem_map] at hmem
          obtain ⟨t, ht, heq⟩ := hmem
          have h1 : t.name = (if (msg.parts.get ⟨i, hi⟩).element ≠ ""
              then (msg.parts.get ⟨i, hi⟩).element
              else (msg.parts.get ⟨i, hi⟩).type) := congrArg Prod.fst heq
          exact habs t ht h1
        · intro tpre t tpost htsplit htname htpost
          have htsome : mapGet (buildIndex model).typeByName
              (if (msg.parts.get ⟨i, hi⟩).element ≠ ""
               then (msg.parts.get ⟨i, hi⟩).element
               else (msg.parts.get ⟨i, hi⟩).type) = some t := by
            have harr : (buildIndex model).typeByName
                = tpre.map (fun u => (u.name, u))
                  ++ (t.name, t) :: tpost.map (fun u => (u.name, u)) := by
              simp [buildIndex, htsplit]
            rw [harr, htname]
            apply mapGet_last
            intro kv hkv
            simp only [List.mem_map] at hkv
            obtain ⟨u, hu, rfl⟩ := hkv
            exact htpost u hu
          rw [hty] at htsome
          cases htsome
          exact ⟨rfl, rfl⟩

/-- C7 witness: on the concrete `modelC7`, the unknown name `Nope` yields
`[]`, and `AddInput` yields exactly one descriptor. -/
theorem claim_C7_witness :
    resolveMessageFields "Nope" (buildIndex modelC7) = [] ∧
    (resolveMessageFields "AddInput" (buildIndex modelC7)).length = 1 := by
  constructor
  · exact (claim_C7_resolveMessageFields modelC7 "Nope").1 (by decide)
  · exact ((claim_C7_resolveMessageFields modelC7 "AddInput").2
      [] { name := "AddInput",
           parts := [{ name := "p", element := "AddRequest", type := "" }] }
      [{ name := "Dangling",
         parts := [{ name := "q", element := "", type := "Missing" }] }]
      rfl rfl (by decide)).1

/-- C8: `resolveMessageFields` performs exactly one level of field lookup
and never walks types transitively: the descriptor for a part whose resolved
type `t` is self-referential (some field of `t` names `t` itself) contains
exactly `t`'s own field list, unexpanded.  Termination holds by
construction: the resolver is a total function with no recursion into the
type graph. -/
theorem claim_C8_one_level (index : RefIndex) (messageName : String)
    (msg : Message) (hmsg : mapGet index.messageByName messageName = some msg)
    (i : Nat) (hi : i < msg.parts.length) (t : TypeDef)
    (href : mapGet index.typeByName
      (if (msg.parts.get ⟨i, hi⟩).element ≠ "" then (msg.parts.get ⟨i, hi⟩).element
       else (msg.parts.get ⟨i, hi⟩).type) = some t)
    (hself : ∃ f ∈ t.fields, f.type = t.name) :
    (resolveMessageFields messageName index).get? i = some
      { partName := (msg.parts.get ⟨i, hi⟩).name
        typeName := (if (msg.parts.get ⟨i, hi⟩).element ≠ ""
          then (msg.parts.get ⟨i, hi⟩).element
          else (msg.parts.get ⟨i, hi⟩).type)
        fields := t.fields
        enumerations := t.enumerations } := by
  rw [resolveMessageFields_get hmsg i hi, href]

/-- C8 witness: the self-referential `Node` type of `modelC8` resolves to
exactly its own one field, unexpanded. -/
theorem claim_C8_witness :
    (resolveMessageFields "GetNode" (buildIndex modelC8)).get? 0 = some
      { partName := "p", typeName := "Node"
        fields := [{ name := "child", type := "Node", minOccurs := "0",
                     maxOccurs := "1", documentation := "" }]
        enumerations := [] } := by
  exact claim_C8_one_level (buildIndex modelC8) "GetNode"
    { name := "GetNode", parts := [{ name := "p", element := "", type := "Node" }] }
    (by decide) 0 (by decide)
    { name := "Node", kind := "complexType", documentation := ""
      fields := [{ name := "child", type := "Node", minOccurs := "0",
                   maxOccurs := "1", documentation := "" }]
      enumerations := [] }
    (by decide) (by decide)

/-- C9: the normalizer reads style and transport from the protocol
sub-descriptor nested inside the binding node (`b.binding[0]`, same local
name `binding` as its parent after namespace stripping), never from the
outer binding node: a style/transport attribute present on the nested node
is returned, an absent one defaults to `"document"`/`""` (also when the
sub-descriptor itself is absent), and changing the outer node's own
`@_style`/`@_transport` attributes leaves the extraction unchanged. -/
theorem claim_C9_binding_style (b : JVal) :
    ∃ r, extractBindings [b] = [r] ∧
      (∀ s, jget ((jarr (jget b "binding")).head?.getD .null) "@_style" = .str s →
        r.style = s) ∧
      (jget ((jarr (jget b "binding")).head?.getD .null) "@_style" = .null →
        r.style = "document") ∧
      (∀ s, jget ((jarr (jget b "binding")).head?.getD .null) "@_transport" = .str s →
        r.transport = s) ∧
      (jget ((jarr (jget b "binding")).head?.getD .null) "@_transport" = .null →
        r.transport = "") ∧
      (∀ s, extractBindings [jset b "@_style" (.str s)] = extractBindings [b]) ∧
      (∀ s, extractBindings [jset b "@_transport" (.str s)]
        = extractBindings [b]) := by
  refine ⟨_, rfl, ?_, ?_, ?_, ?_, ?_, ?_⟩
  · intro s hs
    show attrOr (if isNull ((jarr (jget b "binding")).head?.getD .null)
      then JVal.obj [] else (jarr (jget b "binding")).head?.getD .null)
      "@_style" "document" = s
    have hnn : isNull ((jarr (jget b "binding")).head?.getD .null) = false := by
      rcases hv : (jarr (jget b "binding")).head?.getD .null with _ | _ | _ | _ <;>
        rw [hv] at hs <;> first | cases hs | rfl
    rw [if_neg (by simp [hnn])]
    exact attrOr_of_str _ hs
  · intro hs
    show attrOr (if isNull ((jarr (jget b "binding")).head?.getD .null)
      then JVal.obj [] else (jarr (jget b "binding")).head?.getD .null)
      "@_style" "document" = "document"
    by_cases hnull : isNull ((jarr (jget b "binding")).head?.getD .null) = true
    · rw [if_pos hnull]
      rfl
    · rw [if_neg hnull]
      exact attrOr_of_null _ hs
  · intro s hs
    show attrOr (if isNull ((jarr (jget b "binding")).head?.getD .null)
      then JVal.obj [] else (jarr (jget b "binding")).head?.getD .null)
      "@_transport" "" = s
    have hnn : isNull ((jarr (jget b "binding")).head?.getD .null) = false := by
      rcases hv : (jarr (jget b "binding")).head?.getD .null with _ | _ | _ | _ <;>
        rw [hv] at hs <;> first | cases hs | rfl
    rw [if_neg (by simp [hnn])]
    exact attrOr_of_str _ hs
  · intro hs
    show attrOr (if isNull ((jarr (jget b "binding")).head?.getD .null)
      then JVal.obj [] else (jarr (jget b "binding")).head?.getD .null)
      "@_transport" "" = ""
    by_cases hnull : isNull ((jarr (jget b "binding")).head?.getD .null) = true
    · rw [if_pos hnull]
      rfl
    · rw [if_neg hnull]
      exact attrOr_of_null _ hs
  · intro s
    exact extractBindings_outer_congr b "@_style" (.str s)
      (by decide) (by decide) (by decide) (by decide)
  · intro s
    exact extractBindings_outer_congr b "@_transport" (.str s)
      (by decide) (by decide) (by decide) (by decide)

/-- C9 witness: on `bindC9`, whose nested sub-descriptor omits `style` but
whose outer node carries `@_style="rpc"`, the style defaults to `document`,
the transport is read from the nested node, and rewriting the outer
`@_style` changes nothing. -/
theorem claim_C9_witness :
    ∃ r, extractBindings [bindC9] = [r] ∧ r.style = "document" ∧
      r.transport = "http://schemas.xmlsoap.org/soap/http" ∧
      extractBindings [jset bindC9 "@_style" (.str "document")]
        = extractBindings [bindC9] := by
  obtain ⟨r, hr, _, hdef, htr, _, houter, _⟩ := claim_C9_binding_style bindC9
  exact ⟨r, hr, hdef rfl, htr _ rfl, houter "document"⟩

/-- C10: `buildIndex` builds its two JS `Map`s by insertion, so a duplicate
name maps to the last entry in array order, shadowing earlier entries — for
`typeByName` over `model.types` and `messageByName` over `model.messages`
alike. -/
theorem claim_C10_buildIndex_last_wins (model : Model) :
    (∀ (pre : List TypeDef) (t : TypeDef) (post : List TypeDef),
      model.types = pre ++ t :: post → (∀ u ∈ post, u.name ≠ t.name) →
      mapGet (buildIndex model).typeByName t.name = some t) ∧
    (∀ (pre : List Message) (m : Message) (post : List Message),
      model.messages = pre ++ m :: post → (∀ u ∈ post, u.name ≠ m.name) →
      mapGet (buildIndex model).messageByName m.name = some m) := by
  constructor
  · intro pre t post hsplit hpost
    have : (buildIndex model).typeByName
        = pre.map (fun u => (u.name, u)) ++ (t.name, t)
          :: post.map (fun u => (u.name, u)) := by
      simp [buildIndex, hsplit]
    rw [this]
    apply mapGet_last
    intro kv hkv
    simp only [List.mem_map] at hkv
    obtain ⟨u, hu, rfl⟩ := hkv
    exact hpost u hu
  · intro pre m post hsplit hpost
    have : (buildIndex model).messageByName
        = pre.map (fun u => (u.name, u)) ++ (m.name, m)
          :: post.map (fun u => (u.name, u)) := by
      simp [buildIndex, hsplit]
    rw [this]
    apply mapGet_last
    intro kv hkv
    simp only [List.mem_map] at hkv
    obtain ⟨u, hu, rfl⟩ := hkv
    exact hpost u hu

/-- C1 counterexample: the claim fails on the code as stated.  After a
successful `loadWsdl`, the schema-level import node with its schemaLocation
is still present in the returned merged tree: the loops of
`resolveXsdImports`/`resolveWsdlImports` fetch and merge each directive's
target but never remove the directive node. -/
theorem claim_C1_counterexample :
    ∃ r v, loadWsdl envC1 rootDocC1 "base" = .ok (r, v) ∧
      (jarr (jget (jget (jget (jget r "definitions") "types") "schema")
          "import")).map (fun imp => jget imp "@_schemaLocation")
        = [.str "http://h/a.xsd"] := by
  exact ⟨resolvedC1, ["http://h/a.xsd"], rfl, rfl⟩

/-- C1 (amended): the merged tree may still contain import/include
directive nodes (see the counterexample), but after a successful
`loadWsdl` every such directive is resolved rather than dangling: for every
schema-level import/include node with a truthy schemaLocation in the
result, and every document-level import node with a truthy location, the
directive's absolute location is in the returned visited set — it has been
fetched and merged during this resolution (or skipped because it had
already been merged), and merging never copies directive nodes out of the
merged-in documents into the result. -/
theorem claim_C1_amended (env : Env) (doc : Doc) (baseDir : String)
    (r : JVal) (v : List String)
    (h : loadWsdl env doc baseDir = .ok (r, v)) :
    (∀ imp ∈ jarr (jget (jget (jget (jget r "definitions") "types") "schema")
          "import")
        ++ jarr (jget (jget (jget (jget r "definitions") "types") "schema")
          "include"),
      truthy (jget imp "@_schemaLocation") →
      absoluteLocation (jstr (jget imp "@_schemaLocation")) baseDir ∈ v) ∧
    (∀ imp ∈ jarr (jget (jget r "definitions") "import"),
      truthy (jget imp "@_location") →
      absoluteLocation (jstr (jget imp "@_location")) baseDir ∈ v) := by
  unfold loadWsdl at h
  rw [show env.length + 2 = env.length + 1 + 1 from rfl] at h
  rw [mkResolvers_succ_rWsdl] at h
  have hmonoW := (mkResolvers_visited_mono env (env.length + 1)).1
  have hmonoX := (mkResolvers_visited_mono env (env.length + 1)).2
  split at h
  · cases h
  · rename_i raw hparse
    split at h
    · cases h
    · rename_i pair defs1 schema0 hensure
      split at h
      · cases h
      · rename_i pair2 schema2 v1 hxsd
        split at h
        · cases h
        · rename_i pair3 defs3 v2 hwsdl
          cases h
          obtain ⟨kvs, rfl⟩ := parseWsdl_ok_obj hparse
          have hrdefs : jget (jset (.obj kvs) "definitions" defs3) "definitions"
              = defs3 := jget_jset_self kvs "definitions" defs3
          have hd3types : jget defs3 "types"
              = jget (putSchema defs1 schema2) "types" :=
            wsdlGo_jget_preserved env _ "types" (by decide) _ _ _ _ _ _ hwsdl
          have hd3imp : jget defs3 "import"
              = jget (putSchema defs1 schema2) "import" :=
            wsdlGo_jget_preserved env _ "import" (by decide) _ _ _ _ _ _ hwsdl
          have hv12 : v1 ⊆ v := wsdlGo_visited_mono env _ hmonoW _ _ _ _ _ _ hwsdl
          constructor
          · intro imp hmem hloc
            rw [hrdefs, hd3types] at hmem
            rcases putSchema_jget_of_ensureSchema hensure schema2 with hps | hps
            · rw [hps] at hmem
              have himp : jget schema2 "import" = jget schema0 "import" :=
                xsdGo_jget_preserved env _ "import" (by decide) _ _ _ _ _ _ hxsd
              have hinc : jget schema2 "include" = jget schema0 "include" :=
                xsdGo_jget_preserved env _ "include" (by decide) _ _ _ _ _ _ hxsd
              rw [himp, hinc] at hmem
              have := xsdGo_visits env _ hmonoX _ _ _ _ _ _ hxsd imp hmem hloc
              exact hv12 this
            · rw [hps.1] at hmem
              simp [jarr, jget] at hmem
          · intro imp hmem hloc
            rw [hrdefs, hd3imp] at hmem
            exact wsdlGo_visits env _ hmonoW _ _ _ _ _ _ hwsdl imp hmem hloc

/-- C1 witness: on the concrete one-import graph, the remaining directive's
absolute location is in the returned visited set. -/
theorem claim_C1_witness :
    ∃ r v, loadWsdl envC1 rootDocC1 "base" = .ok (r, v) ∧
      absoluteLocation "http://h/a.xsd" "base" ∈ v := by
  refine ⟨resolvedC1, ["http://h/a.xsd"], rfl, ?_⟩
  have h := (claim_C1_amended envC1 rootDocC1 "base" resolvedC1
    ["http://h/a.xsd"] rfl).1
  exact h (xsdImport "http://h/a.xsd")
    (show xsdImport "http://h/a.xsd" ∈ [xsdImport "http://h/a.xsd"] from
      List.mem_singleton.mpr rfl)
    rfl

/-- A schema-import loop over directives with no truthy schemaLocation
changes nothing: every iteration hits the skip branch. -/
theorem xsdGo_all_skip (env : Env)
    (next : JVal → String → List String → Except Err (JVal × List String)) :
    ∀ (imps : List JVal) (schema : JVal) (b : String) (v : List String),
      (∀ imp ∈ imps, truthy (jget imp "@_schemaLocation") = false) →
      xsdGo env next imps schema b v = .ok (schema, v) := by
  intro imps
  induction imps with
  | nil =>
    intro schema b v _
    rfl
  | cons imp rest ih =>
    intro schema b v h
    have h0 := h imp (List.mem_cons_self _ _)
    simp only [xsdGo, h0]
    simpa using ih schema b v (fun i hi => h i (List.mem_cons_of_mem _ hi))

/-- A document-import loop over directives with no truthy location changes
nothing. -/
theorem wsdlGo_all_skip (env : Env)
    (next : Doc → String → List String → Except Err (JVal × List String)) :
    ∀ (imps : List JVal) (defs : JVal) (b : String) (v : List String),
      (∀ imp ∈ imps, truthy (jget imp "@_location") = false) →
      wsdlGo env next imps defs b v = .ok (defs, v) := by
  intro imps
  induction imps with
  | nil =>
    intro defs b v _
    rfl
  | cons imp rest ih =>
    intro defs b v h
    have h0 := h imp (List.mem_cons_self _ _)
    simp only [wsdlGo, h0]
    simpa using ih defs b v (fun i hi => h i (List.mem_cons_of_mem _ hi))

/-- `ensureSchema` writes only the `types` member of the definitions. -/
theorem ensureSchema_jget_ne {defs defs1 schema1 : JVal}
    (h : ensureSchema defs = .ok (defs1, schema1)) (k : String)
    (hk : k ≠ "types") : jget defs1 k = jget defs k := by
  cases defs with
  | obj kvs =>
    simp only [ensureSchema] at h
    split at h
    · split at h
      · split at h
        · cases h
          rfl
        · cases h
          exact jget_jset_ne _ _ _ _ hk
      · cases h
        rfl
      · cases h
    · cases h
      exact jget_jset_ne _ _ _ _ hk
  | arr items =>
    cases h
    rfl
  | null => cases h
  | str s => cases h

/-- The ensured schema is either the document's own truthy schema node or a
fresh empty object standing in for an absent/falsy/invisible one. -/
theorem ensureSchema_schema_char {defs defs1 schema1 : JVal}
    (h : ensureSchema defs = .ok (defs1, schema1)) :
    (schema1 = jget (jget defs "types") "schema" ∧ truthy schema1 = true) ∨
    (schema1 = .obj [] ∧ truthy (jget (jget defs "types") "schema") = false) := by
  cases defs with
  | obj kvs =>
    simp only [ensureSchema] at h
    split at h
    · rename_i htruthy
      split at h
      · rename_i tkvs heq
        split at h
        · rename_i hstruthy
          cases h
          exact Or.inl ⟨heq ▸ rfl, hstruthy⟩
        · rename_i hsfalsy
          cases h
          refine Or.inr ⟨rfl, ?_⟩
          rw [heq]
          simpa using hsfalsy
      · rename_i items heq
        cases h
        refine Or.inr ⟨rfl, ?_⟩
        rw [heq]
        rfl
      · cases h
    · rename_i hfalsy
      cases h
      refine Or.inr ⟨rfl, ?_⟩
      rcases hv : jget (JVal.obj kvs) "types" with _ | sv | okvs | av <;>
        rw [hv] at hfalsy
      · rfl
      · rcases hs : sv with _
        subst hs
        rfl
      · simp [truthy] at hfalsy
      · simp [truthy] at hfalsy
  | arr items =>
    cases h
    exact Or.inr ⟨rfl, rfl⟩
  | null => cases h
  | str s => cases h

/-- A successful `ensureSchema` keeps both the document node and the
written-back definitions truthy. -/
theorem ensureSchema_truthy {defs defs1 schema1 : JVal}
    (h : ensureSchema defs = .ok (defs1, schema1)) (x : JVal) :
    truthy defs = true ∧ truthy (putSchema defs1 x) = true := by
  cases defs with
  | obj kvs =>
    refine ⟨rfl, ?_⟩
    simp only [ensureSchema] at h
    split at h
    · split at h
      · split at h
        · cases h
          rfl
        · cases h
          rfl
      · cases h
        rfl
      · cases h
    · cases h
      rfl
  | arr items =>
    cases h
    exact ⟨rfl, rfl⟩
  | null => cases h
  | str s => cases h

/-- `attrOr` reads only the named member. -/
theorem attrOr_congr {a b : JVal} {k : String} (h : jget a k = jget b k)
    (d : String) : attrOr a k d = attrOr b k d := by
  unfold attrOr
  rw [h]

/-- `getDoc` reads only the node's truthiness and its documentation and
annotation members. -/
theorem getDoc_congr {a b : JVal} (ht : truthy a = truthy b)
    (hd : jget a "documentation" = jget b "documentation")
    (hann : jget a "annotation" = jget b "annotation") : getDoc a = getDoc b := by
  unfold getDoc
  rw [ht, hd, hann]

/-- No types are extracted from a falsy schema read, whichever falsy shape
the nullish fallback leaves. -/
theorem extractTypes_falsy {x : JVal} (h : truthy x = false) :
    extractTypes (if isNull x then JVal.obj [] else x) = [] := by
  cases x with
  | null => rfl
  | str s => rfl
  | obj kvs => simp [truthy] at h
  | arr items => simp [truthy] at h

/-- In the two-path import graph, resolution visits B (direct import),
visits C, skips C's own import of B (already visited), and merges B's
declarations exactly once. -/
theorem loadWsdl_envC4 (hd : String) (tl : List String) :
    loadWsdl (envC4 (hd :: tl)) rootDocC4 ""
      = .ok (resolvedC4 (hd :: tl), [locC, locB]) := rfl

/-- Normalizing the two-path merged tree yields one complexType `TypeDef`
per name declared in B, in order. -/
theorem buildModel_types_C4 (names : List String) :
    (buildModel (resolvedC4 names)).types
      = names.map (fun nm =>
          { name := nm
            kind := "complexType"
            documentation := ""
            fields := []
            enumerations := [] }) := by
  show (names.map (fun nm => JVal.obj [("@_name", JVal.str nm)])).map
      (fun ct =>
        ({ name := attrOr ct "@_name" ""
           kind := "complexType"
           documentation := getDoc ct
           fields := extractFields ct
           enumerations := [] } : TypeDef)) ++ [] = _
  rw [List.append_nil, List.map_map]
  rfl

/-- A name occurring once in a duplicate-free list is matched by exactly
one of the corresponding TypeDefs. -/
theorem filter_name_map_length :
    ∀ (l : List String) (n : String), l.Nodup → n ∈ l →
      ((l.map (fun nm =>
          ({ name := nm
             kind := "complexType"
             documentation := ""
             fields := []
             enumerations := [] } : TypeDef))).filter
        (fun t => t.name = n)).length = 1 := by
  intro l
  induction l with
  | nil =>
    intro n _ hmem
    cases hmem
  | cons a rest ih =>
    intro n hnd hmem
    by_cases ha : a = n
    · subst ha
      have hnin : a ∉ rest := (List.nodup_cons.mp hnd).1
      have hnil : (rest.map (fun nm =>
          ({ name := nm
             kind := "complexType"
             documentation := ""
             fields := []
             enumerations := [] } : TypeDef))).filter
          (fun t => t.name = a) = [] := by
        rw [List.filter_eq_nil_iff]
        intro t ht
        simp only [List.mem_map] at ht
        obtain ⟨nm, hnm, rfl⟩ := ht
        simp only [decide_eq_true_eq]
        intro hcon
        exact hnin (hcon ▸ hnm)
      simp [List.filter_cons, hnil]
    · have hmem' : n ∈ rest := by
        rcases List.mem_cons.mp hmem with h | h
        · exact absurd h.symm ha
        · exact h
      have := ih n (List.nodup_cons.mp hnd).2 hmem'
      simpa [List.filter_cons, ha] using this

/-- C4: when the same schema import target B is reachable via two paths
(the root imports B directly and also imports C, which imports B again,
both paths resolving to the same absolute location), B's top-level
declarations are merged into the root schema exactly once: the final model
contains exactly one TypeDef for each name declared in B. -/
theorem claim_C4_merged_once (names : List String) (n : String)
    (hnd : names.Nodup) (hmem : n ∈ names) :
    ∃ r v, loadWsdl (envC4 names) rootDocC4 "" = .ok (r, v) ∧
      ((buildModel r).types.filter (fun t => t.name = n)).length = 1 := by
  cases names with
  | nil => cases hmem
  | cons hd tl =>
    refine ⟨resolvedC4 (hd :: tl), [locC, locB], loadWsdl_envC4 hd tl, ?_⟩
    rw [buildModel_types_C4]
    exact filter_name_map_length (hd :: tl) n hnd hmem

/-- C4 witness: with B declaring `BT1` and `BT2`, the final model contains
exactly one TypeDef named `BT1`. -/
theorem claim_C4_witness :
    ∃ r v, loadWsdl (envC4 ["BT1", "BT2"]) rootDocC4 "" = .ok (r, v) ∧
      ((buildModel r).types.filter (fun t => t.name = "BT1")).length = 1 :=
  claim_C4_merged_once ["BT1", "BT2"] "BT1" (by decide) (by decide)

/-- C5 counterexample: the claim fails on the code as stated.  On a
document with no located import/include declarations whose `types` element
parsed to a truthy primitive string, `ensureSchema`'s strict-mode property
write (`defs['types']['schema'] = {}` with a primitive receiver) throws, so
`loadWsdl` rejects while `buildModel ∘ parseWsdl` succeeds: the two sides
of the claimed equation differ. -/
theorem claim_C5_counterexample :
    (loadWsdl [] docC5 "b").map (fun rv => buildModel rv.1)
      ≠ (parseWsdl docC5).map buildModel ∧
    loadWsdl [] docC5 "b" = .error .typeErr := by
  refine ⟨fun hcon => ?_, rfl⟩
  exact Except.noConfusion hcon

/-- C5 (amended): for every document with no located import/include
declarations on which the schema-node creation step succeeds (`ensureSchema`
does not hit its strict-mode TypeError — the counterexample shows this
proviso is needed), import resolution is a no-op at the model level:
`loadWsdl` succeeds and normalizing its merged tree equals normalizing the
direct parse. -/
theorem claim_C5_amended (env : Env) (doc : Doc) (baseDir : String)
    (raw defs1 schema1 : JVal)
    (hparse : parseWsdl doc = .ok raw)
    (hens : ensureSchema (jget raw "definitions") = .ok (defs1, schema1))
    (hnoschema : ∀ imp ∈ jarr (jget schema1 "import")
        ++ jarr (jget schema1 "include"),
      truthy (jget imp "@_schemaLocation") = false)
    (hnodoc : ∀ imp ∈ jarr (jget (jget raw "definitions") "import"),
      truthy (jget imp "@_location") = false) :
    ∃ r v, loadWsdl env doc baseDir = .ok (r, v) ∧
      buildModel r = buildModel raw := by
  have himp : jget (putSchema defs1 schema1) "import"
      = jget (jget raw "definitions") "import" := by
    unfold putSchema
    rw [jget_jset_ne _ _ _ _ (by decide : "import" ≠ "types")]
    exact ensureSchema_jget_ne hens "import" (by decide)
  have hload : loadWsdl env doc baseDir
      = .ok (jset raw "definitions" (putSchema defs1 schema1), []) := by
    unfold loadWsdl
    rw [show env.length + 2 = env.length + 1 + 1 from rfl,
      mkResolvers_succ_rWsdl]
    simp only [hparse, hens, himp,
      xsdGo_all_skip env ((mkResolvers env (env.length + 1)).rXsd)
        (jarr (jget schema1 "import") ++ jarr (jget schema1 "include"))
        schema1 baseDir [] hnoschema,
      wsdlGo_all_skip env ((mkResolvers env (env.length + 1)).rWsdl)
        (jarr (jget (jget raw "definitions") "import"))
        (putSchema defs1 schema1) baseDir [] hnodoc]
  obtain ⟨kvs, hraw⟩ := parseWsdl_ok_obj hparse
  have hrd : jget (jset raw "definitions" (putSchema defs1 schema1))
      "definitions" = putSchema defs1 schema1 := by
    rw [hraw]
    exact jget_jset_self _ _ _
  have hkeys : ∀ k, k ≠ "types" →
      jget (putSchema defs1 schema1) k = jget (jget raw "definitions") k := by
    intro k hk
    unfold putSchema
    rw [jget_jset_ne _ _ _ _ hk]
    exact ensureSchema_jget_ne hens k hk
  refine ⟨_, _, hload, ?_⟩
  simp only [buildModel, hrd, Model.mk.injEq]
  refine ⟨?_, ?_, ?_, ?_, ?_, ?_, ?_, ?_⟩
  · exact attrOr_congr (hkeys "@_name" (by decide)) ""
  · exact attrOr_congr (hkeys "@_targetNamespace" (by decide)) ""
  · refine getDoc_congr ?_ (hkeys "documentation" (by decide))
      (hkeys "annotation" (by decide))
    rw [(ensureSchema_truthy hens schema1).1, (ensureSchema_truthy hens schema1).2]
  · rcases putSchema_jget_of_ensureSchema hens schema1 with hps | hps
    · rw [hps]
      rcases ensureSchema_schema_char hens with ⟨hs1, _⟩ | ⟨hs1, hs2⟩
      · rw [hs1]
      · rw [hs1, extractTypes_falsy hs2]
        rfl
    · rw [hps.1, hps.2]
  · rw [hkeys "message" (by decide)]
  · rw [hkeys "portType" (by decide)]
  · rw [hkeys "binding" (by decide)]
  · rw [hkeys "service" (by decide)]

/-- C5 witness: an import-free document with no `types` element resolves
to the same model as its direct parse. -/
theorem claim_C5_witness :
    ∃ r v, loadWsdl [] (.parsed rawC5ok) "b" = .ok (r, v) ∧
      buildModel r = buildModel rawC5ok := by
  refine claim_C5_amended [] (.parsed rawC5ok) "b" rawC5ok
    (.obj [("message", .arr [.obj [("@_name", .str "M")]]),
           ("types", .obj [("schema", .obj [])])])
    (.obj []) rfl rfl ?_ ?_
  · intro imp hmem
    cases hmem
  · intro imp hmem
    cases hmem

/-- C6 counterexample: the claim requires the rejection error to carry the
offending location; when the transitively imported document is malformed
XML, `loadWsdl` rejects with the parser's error, which carries no location
(`parseXsd`/`parseWsdl` never receive one). -/
theorem claim_C6_counterexample :
    loadWsdl envC6 rootDocImp "" = .error .parseErr ∧
    errLocation .parseErr = none := ⟨rfl, rfl⟩

/-- Fetch through a cons is unchanged for other locations. -/
theorem fetchSource_cons_ne (k : String) (d : Doc) (env : Env) (x : String)
    (h : x ≠ k) : fetchSource ((k, d) :: env) x = fetchSource env x := by
  simp only [fetchSource, List.find?]
  rw [show ((k, d).1 == x) = false by simpa using Ne.symm h]

/-- A chain's fetch facts survive prepending an entry at a fresh key. -/
theorem chainOkGen_cons (env : Env) (e : Err) (k : String) (d : Doc) :
    ∀ (suffix : List String) (lbad : String),
      chainOkGen env e suffix lbad → (∀ x ∈ suffix ++ [lbad], x ≠ k) →
      chainOkGen ((k, d) :: env) e suffix lbad := by
  intro suffix
  induction suffix with
  | nil =>
    intro lbad h hfresh
    have hbk : lbad ≠ k := hfresh lbad (by simp)
    rcases h with h | ⟨h, he⟩
    · exact Or.inl ((fetchSource_cons_ne k d env lbad hbk).trans h)
    · exact Or.inr ⟨(fetchSource_cons_ne k d env lbad hbk).trans h, he⟩
  | cons l rest ih =>
    intro lbad h hfresh
    refine ⟨?_, ?_⟩
    · have hlk : l ≠ k := hfresh l (by simp)
      exact (fetchSource_cons_ne k d env l hlk).trans h.1
    · exact ih lbad h.2 (fun x hx => hfresh x (by
        rcases List.mem_append.mp hx with hx | hx
        · exact List.mem_append_left _ (List.mem_cons_of_mem _ hx)
        · exact List.mem_append_right _ hx))

/-- Build the chain facts for a chain environment over any tail
environment deciding `lbad`'s fate. -/
theorem chainOk_build (lbad : String) (e : Err) (tailEnv : Env)
    (hbase : fetchSource tailEnv lbad = .error e ∨
      (fetchSource tailEnv lbad = .ok .malformed ∧ e = .parseErr)) :
    ∀ locs : List String, (locs ++ [lbad]).Nodup →
      chainOkGen (chainEnv locs lbad ++ tailEnv) e locs lbad := by
  intro locs
  induction locs with
  | nil =>
    intro _
    simpa [chainEnv, chainOkGen] using hbase
  | cons l rest ih =>
    intro hnd
    have hnd' : (rest ++ [lbad]).Nodup := (List.nodup_cons.mp hnd).2
    have hfresh : ∀ x ∈ rest ++ [lbad], x ≠ l := by
      intro x hx hcon
      exact (List.nodup_cons.mp hnd).1 (hcon ▸ hx)
    refine ⟨?_, ?_⟩
    · simp [chainEnv, fetchSource, List.find?]
    · exact chainOkGen_cons _ e l (chainDoc (rest.headD lbad)) rest lbad
        (ih hnd') hfresh

/-- A chain environment's keys are the listed locations. -/
theorem chainEnv_length (lbad : String) :
    ∀ locs : List String, (chainEnv locs lbad).length = locs.length := by
  intro locs
  induction locs with
  | nil => rfl
  | cons l rest ih => simp [chainEnv, ih]

/-- `resolveWsdl` on a malformed document fails with the parser's error at
any positive fuel. -/
theorem rWsdl_malformed (env : Env) (fuel : Nat) (b : String)
    (v : List String) :
    (mkResolvers env (fuel + 1)).rWsdl .malformed b v = .error .parseErr := rfl

/-- Evaluate one resolution step on a chain document whose single import
target is unreachable. -/
theorem rWsdl_chainDoc_fetchErr (env : Env) (fuel : Nat) (loc b : String)
    (visited : List String) (hne : loc ≠ "") (hurl : isUrl loc = true)
    (hnv : loc ∉ visited) {e : Err}
    (hf : fetchSource env loc = .error e) :
    (mkResolvers env (fuel + 1)).rWsdl (chainDoc loc) b visited = .error e := by
  rw [mkResolvers_succ_rWsdl]
  simp [chainDoc, parseWsdl, ensureSchema, xsdGo, wsdlGo, putSchema, jget,
    jset, jarr, findVal, setKV, truthy, jstr, wsdlImport, absoluteLocation,
    hurl, hne, hnv, hf]

/-- Evaluate one resolution step on a chain document whose single import
target fetches a document on which the recursive resolution fails. -/
theorem rWsdl_chainDoc_nextErr (env : Env) (fuel : Nat) (loc b : String)
    (visited : List String) (hne : loc ≠ "") (hurl : isUrl loc = true)
    (hnv : loc ∉ visited) {d : Doc} (hf : fetchSource env loc = .ok d)
    {e : Err}
    (hnext : (mkResolvers env fuel).rWsdl d (baseDirOf loc) (loc :: visited)
      = .error e) :
    (mkResolvers env (fuel + 1)).rWsdl (chainDoc loc) b visited = .error e := by
  rw [mkResolvers_succ_rWsdl]
  simp [chainDoc, parseWsdl, ensureSchema, xsdGo, wsdlGo, putSchema, jget,
    jset, jarr, findVal, setKV, truthy, jstr, wsdlImport, absoluteLocation,
    hurl, hne, hnv, hf, hnext]

/-- The failure at the end of an import chain of any depth propagates out
through every pending recursive call. -/
theorem chain_gen (env : Env) (e : Err) :
    ∀ (suffix : List String) (lbad : String) (fuel : Nat)
      (visited : List String) (b : String),
      (∀ l ∈ suffix, isUrl l = true) → isUrl lbad = true →
      (∀ l ∈ suffix, l ∉ visited) → lbad ∉ visited →
      (suffix ++ [lbad]).Nodup →
      chainOkGen env e suffix lbad →
      suffix.length + 2 ≤ fuel →
      (mkResolvers env fuel).rWsdl (chainDoc (suffix.headD lbad)) b visited
        = .error e := by
  intro suffix
  induction suffix with
  | nil =>
    intro lbad fuel visited b _ hurlb _ hnvb _ hok hfuel
    obtain ⟨f, rfl⟩ : ∃ f, fuel = f + 1 := ⟨fuel - 1, by omega⟩
    have hbne : lbad ≠ "" := by
      intro hcon
      rw [hcon] at hurlb
      exact absurd hurlb (by decide)
    rcases hok with hferr | ⟨hfok, he⟩
    · exact rWsdl_chainDoc_fetchErr env f lbad b visited hbne hurlb hnvb hferr
    · obtain ⟨f2, rfl⟩ : ∃ f2, f = f2 + 1 := ⟨f - 1, by omega⟩
      refine rWsdl_chainDoc_nextErr env (f2 + 1) lbad b visited hbne hurlb
        hnvb hfok ?_
      rw [rWsdl_malformed, he]
  | cons l rest ih =>
    intro lbad fuel visited b hurls hurlb hnvs hnvb hnd hok hfuel
    obtain ⟨f, rfl⟩ : ∃ f, fuel = f + 1 := ⟨fuel - 1, by omega⟩
    have hl : isUrl l = true := hurls l (List.mem_cons_self _ _)
    have hlne : l ≠ "" := by
      intro hcon
      rw [hcon] at hl
      exact absurd hl (by decide)
    have hnotin : l ∉ rest ++ [lbad] := (List.nodup_cons.mp (by simpa using hnd)).1
    refine rWsdl_chainDoc_nextErr env f l b visited hlne hl
      (hnvs l (List.mem_cons_self _ _)) hok.1 ?_
    apply ih lbad f (l :: visited) (baseDirOf l)
      (fun x hx => hurls x (List.mem_cons_of_mem _ hx)) hurlb
      (fun x hx => by
        simp only [List.mem_cons, not_or]
        exact ⟨fun hcon => hnotin (hcon ▸ List.mem_append_left _ hx),
          hnvs x (List.mem_cons_of_mem _ hx)⟩)
      (by
        simp only [List.mem_cons, not_or]
        exact ⟨fun hcon => hnotin (hcon ▸ List.mem_append_right _ (by simp)),
          hnvb⟩)
      (List.nodup_cons.mp (by simpa using hnd)).2
      hok.2
      (by simpa using Nat.le_of_succ_le_succ (by simpa using hfuel))

/-- C6 (amended): an unreachable location or a malformed document anywhere
along a transitive import chain of any depth aborts the whole resolution
with no merged tree: `loadWsdl` rejects, the failure propagating through
every pending recursive import call.  The unreachable-location error
carries the offending location; the malformed-document error is the
parser's own and carries no location (the claim's blanket
"error carrying the offending location" fails there, see the
counterexample). -/
theorem claim_C6_amended (locs : List String) (lbad : String)
    (hnd : (locs ++ [lbad]).Nodup)
    (hurls : ∀ l ∈ locs ++ [lbad], isUrl l = true) :
    (loadWsdl (chainEnv locs lbad) (chainDoc (locs.headD lbad)) ""
        = .error (.fetchErr lbad) ∧
      errLocation (.fetchErr lbad) = some lbad) ∧
    (loadWsdl (chainEnv locs lbad ++ [(lbad, .malformed)])
        (chainDoc (locs.headD lbad)) "" = .error .parseErr ∧
      errLocation .parseErr = none) := by
  have hurlb : isUrl lbad = true := hurls lbad (by simp)
  have hurls' : ∀ l ∈ locs, isUrl l = true :=
    fun l hl => hurls l (List.mem_append_left _ hl)
  constructor
  · refine ⟨?_, rfl⟩
    have hok : chainOkGen (chainEnv locs lbad) (.fetchErr lbad) locs lbad := by
      have := chainOk_build lbad (.fetchErr lbad) [] (Or.inl rfl) locs hnd
      simpa using this
    unfold loadWsdl
    apply chain_gen _ _ _ _ _ _ _ hurls' hurlb (by simp) (by simp) hnd hok
    rw [chainEnv_length]
  · refine ⟨?_, rfl⟩
    have hok : chainOkGen (chainEnv locs lbad ++ [(lbad, .malformed)])
        .parseErr locs lbad := by
      refine chainOk_build lbad .parseErr [(lbad, .malformed)] ?_ locs hnd
      exact Or.inr ⟨by simp [fetchSource, List.find?], rfl⟩
    unfold loadWsdl
    apply chain_gen _ _ _ _ _ _ _ hurls' hurlb (by simp) (by simp) hnd hok
    simp [chainEnv_length]

/-- C6 witness: a depth-one chain, with the final location unreachable and,
in the second environment, malformed. -/
theorem claim_C6_witness :
    loadWsdl (chainEnv ["http://h/a.wsdl"] "http://h/x.wsdl")
      (chainDoc "http://h/a.wsdl") "" = .error (.fetchErr "http://h/x.wsdl") ∧
    loadWsdl (chainEnv ["http://h/a.wsdl"] "http://h/x.wsdl"
        ++ [("http://h/x.wsdl", .malformed)])
      (chainDoc "http://h/a.wsdl") "" = .error .parseErr := by
  have h := claim_C6_amended ["http://h/a.wsdl"] "http://h/x.wsdl"
    (by decide) (by decide)
  exact ⟨h.1.1, h.2.1⟩

/-- C3 counterexample: the claim's unconditional distinctness fails on the
code.  A root document importing a document that itself declares two
messages named `M` resolves successfully to merged definitions whose
message name list is `[M, M]` — not pairwise distinct — because
`mergeWsdlDefs` deduplicates incoming items only against the destination,
never within the incoming list. -/
theorem claim_C3_counterexample :
    ∃ r v, loadWsdl envC3 rootDocImp "" = .ok (r, v) ∧
      (jarr (jget (jget r "definitions") "message")).map nameKey
        = [some "M", some "M"] ∧
      ¬ ([some "M", some "M"] : List (Option String)).Nodup := by
  refine ⟨.obj [("definitions", .obj [
      ("import", .arr [wsdlImport "http://h/i.wsdl"]),
      ("types", .obj [("schema", .obj [])]),
      ("message", .arr [.obj [("@_name", .str "M")],
                        .obj [("@_name", .str "M"),
                              ("part", .arr [.obj [("@_name", .str "p")]])]])])],
    ["http://h/i.wsdl"], rfl, rfl, by decide⟩

/-- One merge key read back at its own key: the merged items are the
destination's followed by the incoming items whose declared name is not
already present. -/
theorem mergeWsdlDefsKey_jget_self (src : JVal)
    (dkvs : List (String × JVal)) (key : String) :
    jarr (jget (mergeWsdlDefsKey src (.obj dkvs) key) key)
      = jarr (jget (.obj dkvs) key)
        ++ (jarr (jget src key)).filter
            (fun n =>
              !(((jarr (jget (.obj dkvs) key)).map nameKey).contains (nameKey n))) := by
  simp only [mergeWsdlDefsKey]
  split
  · rename_i hempty
    rw [List.isEmpty_iff] at hempty
    rw [hempty]
    simp
  · rw [jget_jset_self]
    rfl

/-- `mergeWsdlDefsKey` keeps an object receiver an object. -/
theorem mergeWsdlDefsKey_obj (src : JVal) (dkvs : List (String × JVal))
    (key : String) :
    ∃ dkvs2, mergeWsdlDefsKey src (.obj dkvs) key = .obj dkvs2 := by
  simp only [mergeWsdlDefsKey]
  split
  · exact ⟨dkvs, rfl⟩
  · exact ⟨_, rfl⟩

/-- C3 (amended): the claim's distinctness fails when a single document
already carries duplicate names (see the counterexample); what holds is:
for each of the four merged collections, if the destination's and the
incoming source's declared-name lists are each duplicate-free, then after
`mergeWsdlDefs` the collection is the destination's items (first-seen
definitions, kept in order) followed by exactly those incoming items whose
declared name is not already present (duplicates introduced by
repeated/transitive imports are dropped), and its name list is pairwise
distinct. -/
theorem claim_C3_amended (src : JVal) (dkvs : List (String × JVal))
    (key : String) (hkey : key ∈ WSDL_DEF_KEYS)
    (hdest : ((jarr (jget (.obj dkvs) key)).map nameKey).Nodup)
    (hsrc : ((jarr (jget src key)).map nameKey).Nodup) :
    jarr (jget (mergeWsdlDefs (.obj dkvs) src) key)
      = jarr (jget (.obj dkvs) key)
        ++ (jarr (jget src key)).filter
            (fun n =>
              !(((jarr (jget (.obj dkvs) key)).map nameKey).contains (nameKey n))) ∧
    ((jarr (jget (mergeWsdlDefs (.obj dkvs) src) key)).map nameKey).Nodup := by
  have main : jarr (jget (mergeWsdlDefs (.obj dkvs) src) key)
      = jarr (jget (.obj dkvs) key)
        ++ (jarr (jget src key)).filter
            (fun n =>
              !(((jarr (jget (.obj dkvs) key)).map nameKey).contains (nameKey n))) := by
    have expand : mergeWsdlDefs (.obj dkvs) src
        = mergeWsdlDefsKey src
            (mergeWsdlDefsKey src
              (mergeWsdlDefsKey src
                (mergeWsdlDefsKey src (.obj dkvs) "message") "portType")
              "binding") "service" := rfl
    simp only [WSDL_DEF_KEYS, List.mem_cons, List.not_mem_nil, or_false] at hkey
    obtain ⟨d1, hd1⟩ := mergeWsdlDefsKey_obj src dkvs "message"
    obtain ⟨d2, hd2⟩ := mergeWsdlDefsKey_obj src d1 "portType"
    obtain ⟨d3, hd3⟩ := mergeWsdlDefsKey_obj src d2 "binding"
    rcases hkey with rfl | rfl | rfl | rfl
    · rw [expand, hd1, hd2, hd3,
        mergeWsdlDefsKey_jget_ne _ _ _ _ (by decide : "message" ≠ "service"),
        ← hd3, mergeWsdlDefsKey_jget_ne _ _ _ _ (by decide : "message" ≠ "binding"),
        ← hd2, mergeWsdlDefsKey_jget_ne _ _ _ _ (by decide : "message" ≠ "portType"),
        ← hd1, mergeWsdlDefsKey_jget_self]
    · rw [expand, hd1, hd2, hd3,
        mergeWsdlDefsKey_jget_ne _ _ _ _ (by decide : "portType" ≠ "service"),
        ← hd3, mergeWsdlDefsKey_jget_ne _ _ _ _ (by decide : "portType" ≠ "binding"),
        ← hd2, mergeWsdlDefsKey_jget_self, ← hd1,
        mergeWsdlDefsKey_jget_ne _ _ _ _ (by decide : "portType" ≠ "message")]
    · rw [expand, hd1, hd2, hd3,
        mergeWsdlDefsKey_jget_ne _ _ _ _ (by decide : "binding" ≠ "service"),
        ← hd3, mergeWsdlDefsKey_jget_self, ← hd2,
        mergeWsdlDefsKey_jget_ne _ _ _ _ (by decide : "binding" ≠ "portType"),
        ← hd1,
        mergeWsdlDefsKey_jget_ne _ _ _ _ (by decide : "binding" ≠ "message")]
    · rw [expand, hd1, hd2, hd3,
        mergeWsdlDefsKey_jget_self,
        ← hd3, mergeWsdlDefsKey_jget_ne _ _ _ _ (by decide : "service" ≠ "binding"),
        ← hd2, mergeWsdlDefsKey_jget_ne _ _ _ _ (by decide : "service" ≠ "portType"),
        ← hd1, mergeWsdlDefsKey_jget_ne _ _ _ _ (by decide : "service" ≠ "message")]
  refine ⟨main, ?_⟩
  rw [main, List.map_append]
  apply List.Nodup.append hdest
  · exact List.Nodup.sublist
      (List.Sublist.map nameKey (List.filter_sublist _)) hsrc
  · intro a ha hb
    simp only [List.mem_map] at hb
    obtain ⟨n, hn, rfl⟩ := hb
    have hfilt := List.of_mem_filter hn
    simp only [Bool.not_eq_true'] at hfilt
    have : nameKey n ∉ (jarr (jget (JVal.obj dkvs) key)).map nameKey := by
      simpa using hfilt
    exact this ha

/-- C3 witness: merging `srcW` (messages `A`, `B`) into `destW` (message
`A`) keeps the destination's `A`, drops the incoming `A`, appends `B`, and
the resulting names are distinct. -/
theorem claim_C3_witness :
    jarr (jget (mergeWsdlDefs destW srcW) "message")
      = [.obj [("@_name", .str "A")], .obj [("@_name", .str "B")]] ∧
    ((jarr (jget (mergeWsdlDefs destW srcW) "message")).map nameKey).Nodup := by
  have h := claim_C3_amended srcW
    [("message", .arr [.obj [("@_name", .str "A")]])] "message"
    (by decide) (by decide) (by decide)
  exact ⟨h.1.trans rfl, h.2⟩

/-- C10 witness: on `modelC10`, whose types and messages arrays each carry
two same-named entries, both lookups return the second (last) entry. -/
theorem claim_C10_witness :
    mapGet (buildIndex modelC10).typeByName "T" = some
      { name := "T", kind := "simpleType", documentation := "second"
        fields := [], enumerations := ["x"] } ∧
    mapGet (buildIndex modelC10).messageByName "M" = some
      { name := "M", parts := [{ name := "p", element := "", type := "T" }] } := by
  constructor
  · exact (claim_C10_buildIndex_last_wins modelC10).1
      [{ name := "T", kind := "complexType", documentation := "first"
         fields := [], enumerations := [] }]
      { name := "T", kind := "simpleType", documentation := "second"
        fields := [], enumerations := ["x"] } [] rfl (by decide)
  · exact (claim_C10_buildIndex_last_wins modelC10).2
      [{ name := "M", parts := [] }]
      { name := "M", parts := [{ name := "p", element := "", type := "T" }] }
      [] rfl (by decide)

end CWsdl
